import Mathlib

/-!
Shallow embedding of the giveaway core of the `nightsong-bot` repository
(`src/commands/giveaway/`): the reward lifecycle state machine, the
per-participant statistics ledger, the manual-select roll strategy, the
`GiveawayManager` operations, the reward-text parser and the reward
formatters.  Rust `u64` user ids and `Uuid` reward ids are modelled as `Nat`
(only equality of ids is ever used by the code); the `DashMap` of
participant statistics is modelled as an association list; shared mutable
state (`Arc`/atomic cells) is modelled by explicit state passing: every
manager operation returns both its `Result` and the manager state after the
call, since in the source mutations performed before an early `return Err`
persist.
-/

namespace Nightsong

/-- The state of a reward: `models.rs`, `enum ObjectState`. -/
inductive ObjectState where
  | Activated
  | Pending
  | Unused
deriving DecidableEq, Repr

/-- Pretty-print glyph of a state: `models.rs`, `ObjectState::as_str`. -/
def ObjectState.as_str : ObjectState → String
  | .Activated => "[+]"
  | .Pending => "[?]"
  | .Unused => "[ ]"

/-- The type of a reward: `models.rs`, `enum ObjectType`. -/
inductive ObjectType where
  | Key
  | KeyPreorder
  | Other
deriving DecidableEq, Repr

/-- One reward: `models.rs`, `struct Reward`.  The `id` field models the
`Uuid`; `object_state` is the only field the code ever mutates. -/
structure Reward where
  id : Nat
  value : String
  description : Option String
  object_info : Option String
  object_type : ObjectType
  object_state : ObjectState
deriving DecidableEq, Repr

/-- `models.rs`, `Reward::is_preorder`. -/
def Reward.is_preorder (r : Reward) : Bool :=
  match r.object_type with
  | ObjectType.KeyPreorder => true
  | _ => false

/-- `models.rs`, `struct ParticipantStats`: the per-user ledger of reward
ids (two hash sets, modelled as `Finset Nat`). -/
structure ParticipantStats where
  pending_rewards : Finset Nat
  retrieved_rewards : Finset Nat
deriving DecidableEq

/-- `models.rs`, `ParticipantStats::new`. -/
def ParticipantStats.new : ParticipantStats :=
  { pending_rewards := ∅, retrieved_rewards := ∅ }

/-- `models.rs`, `ParticipantStats::add_pending_reward`. -/
def ParticipantStats.add_pending_reward (s : ParticipantStats) (v : Nat) : ParticipantStats :=
  { s with pending_rewards := insert v s.pending_rewards }

/-- `models.rs`, `ParticipantStats::remove_pending_reward`. -/
def ParticipantStats.remove_pending_reward (s : ParticipantStats) (v : Nat) : ParticipantStats :=
  { s with pending_rewards := s.pending_rewards.erase v }

/-- `models.rs`, `ParticipantStats::add_retrieved_reward`. -/
def ParticipantStats.add_retrieved_reward (s : ParticipantStats) (v : Nat) : ParticipantStats :=
  { s with retrieved_rewards := insert v s.retrieved_rewards }

/-- The `DashMap<u64, ParticipantStats>` of a giveaway, as an association
list from user id to ledger. -/
abbrev Stats : Type := List (Nat × ParticipantStats)

/-- `DashMap::get` / `get_mut`: the entry for a user, if present. -/
def statsFind (stats : Stats) (user : Nat) : Option ParticipantStats :=
  (List.find? (fun p => p.1 = user) stats).map (fun p => p.2)

/-- Writing back through a `get_mut` reference: replace the value stored
for an existing key. -/
def statsSet (stats : Stats) (user : Nat) (d : ParticipantStats) : Stats :=
  List.map (fun p => if p.1 = user then (p.1, d) else p) stats

/-- `DashMap::insert`: overwrite the entry if the key exists, append it
otherwise. -/
def statsInsert (stats : Stats) (user : Nat) (d : ParticipantStats) : Stats :=
  if (List.find? (fun p => p.1 = user) stats).isSome then statsSet stats user d
  else stats ++ [(user, d)]

/-- One giveaway: `models.rs`, `struct Giveaway`.  The `strategy` field is
fixed to the manual-select strategy in the source (`Giveaway::new`) and the
`message_id` back-reference plays no role in the verified operations, so
neither is carried.  The `deleted` flag backs `mark_as_deleted` (see
below). -/
structure Giveaway where
  active : Bool
  owner : Nat
  description : String
  rewards : List Reward
  stats : Stats
  actions_processed : Nat
  deleted : Bool
deriving DecidableEq

/-- `models.rs`, `Giveaway::update_actions_processed`. -/
def Giveaway.update_actions_processed (g : Giveaway) : Giveaway :=
  { g with actions_processed := g.actions_processed + 1 }

/-- Modelled from the spec: `Giveaway::mark_as_deleted` is called by
`manager.rs::delete_giveaway` but its body is absent from the source tree
(the `models.rs` present there predates it).  It is a method on the
giveaway itself (`&self`), so it can only change that giveaway; following
its name and the manager's TODO note about filtering deleted giveaways, it
is modelled as setting a `deleted` flag on the giveaway.  No theorem about
the registry's shape depends on this body. -/
def Giveaway.mark_as_deleted (g : Giveaway) : Giveaway :=
  { g with deleted := true }

/-- `models.rs`, `Giveaway::remove_reward_by_index` (1-based index). -/
def Giveaway.remove_reward_by_index (g : Giveaway) (index : Nat) : Except String Giveaway :=
  if index > 0 ∧ index < g.rewards.length + 1 then
    Except.ok { g with rewards := g.rewards.eraseIdx (index - 1) }
  else
    Except.error "The requested reward was not found."

namespace ManualSelectStrategy

/-- `strategies/manual.rs`, `check_rewards_are_defined`. -/
def check_rewards_are_defined (rewards : List Reward) : Except String Unit :=
  if rewards.length = 0 then
    Except.error "The giveaway doesn\x27t have any rewards. Please, add rewards or ask to do an owner."
  else Except.ok ()

/-- `strategies/manual.rs`, `check_user_has_pending_rewards`: the caller
already holds a reward that is itself `Pending` and recorded in the
caller's pending set. -/
def check_user_has_pending_rewards (user : Nat) (stats : Stats) (rewards : List Reward) :
    Except String Unit :=
  let pending := match statsFind stats user with
    | some d => d.pending_rewards
    | none => ∅
  let held := rewards.filter (fun r =>
    decide (r.object_state = ObjectState.Pending) && decide (r.id ∈ pending))
  if held.length > 0 then
    Except.error "It\x27s not possible to have more than one reward in the pending state. Please, activate previous reward, or invoke the `!greroll` command."
  else Except.ok ()

/-- `strategies/manual.rs`, `check_no_unused_rewards`. -/
def check_no_unused_rewards (rewards : List Reward) : Except String Unit :=
  let unused := rewards.filter (fun r => decide (r.object_state = ObjectState.Unused))
  if unused.isEmpty then
    Except.error "All possible rewards have been handed out."
  else Except.ok ()

/-- `strategies/manual.rs`, `get_reward`.  The locator is the raw message
argument parsed by `Args::single::<usize>`: `none` models text that does
not parse as a non-negative integer, `some index` a parsed index. -/
def get_reward (rewards : List Reward) (locator : Option Nat) : Except String Reward :=
  match locator with
  | none => Except.error "The request reward index must be a positive integer."
  | some index =>
    if index > 0 ∧ index < rewards.length + 1 then
      match rewards[index - 1]? with
      | some reward =>
        if reward.object_state ≠ ObjectState.Unused then
          Except.error "This reward has already been taken by someone."
        else Except.ok reward
      | none => Except.error "The requested reward was not found."
    else Except.error "The requested reward was not found."

/-- `strategies/manual.rs`, `ManualSelectStrategy::roll`: the four checks
in source order, each short-circuiting. -/
def roll (user : Nat) (stats : Stats) (rewards : List Reward) (locator : Option Nat) :
    Except String Reward := do
  check_rewards_are_defined rewards
  check_user_has_pending_rewards user stats rewards
  check_no_unused_rewards rewards
  get_reward rewards locator

end ManualSelectStrategy

/-- The process-wide registry: `manager.rs`, `struct GiveawayManager` (a
`ConcurrentVec` of giveaway handles). -/
structure GiveawayManager where
  giveaways : List Giveaway
deriving DecidableEq

namespace GiveawayManager

/-- `manager.rs`, `get_giveaways`. -/
def get_giveaways (m : GiveawayManager) : List Giveaway :=
  m.giveaways

/-- `manager.rs`, `get_giveaway_by_index` (1-based). -/
def get_giveaway_by_index (m : GiveawayManager) (index : Nat) : Except String Giveaway :=
  if index > 0 ∧ index < m.giveaways.length + 1 then
    match m.giveaways[index - 1]? with
    | some g => Except.ok g
    | none => Except.error "The requested giveaway was not found."
  else Except.error "The requested giveaway was not found."

/-- Writing an updated giveaway back through its shared handle: the
element at the 1-based position is replaced. -/
def setGiveaway (m : GiveawayManager) (index : Nat) (g : Giveaway) : GiveawayManager :=
  { giveaways := m.giveaways.set (index - 1) g }

/-- `manager.rs`, `get_next_reward_state_after_roll`: the state the rolled
reward must take, together with the updated ledger of the caller. -/
def get_next_reward_state_after_roll (reward : Reward) (data : ParticipantStats) :
    ObjectState × ParticipantStats :=
  match reward.is_preorder with
  | true => (ObjectState.Activated, data.add_retrieved_reward reward.id)
  | false => (ObjectState.Pending, data.add_pending_reward reward.id)

/-- `manager.rs`, `roll_reward`.  Returns the `Result` (the manual
strategy's `to_message` always yields `None`) together with the manager
state after the call: the `actions_processed` bump and lazily created
stats entries persist even when an error is returned. -/
def roll_reward (m : GiveawayManager) (user index reward_number : Nat) :
    Except String (Option String) × GiveawayManager :=
  match get_giveaway_by_index m index with
  | Except.error e => (Except.error e, m)
  | Except.ok g =>
    if !g.active then
      (Except.error "The giveaway hasn\x27t started yet or has been suspended by the owner.", m)
    else
      let g1 := g.update_actions_processed
      match ManualSelectStrategy.roll user g1.stats g1.rewards (some reward_number) with
      | Except.error e => (Except.error e, setGiveaway m index g1)
      | Except.ok selected =>
        let stats1 := match statsFind g1.stats user with
          | some _ => g1.stats
          | none => statsInsert g1.stats user ParticipantStats.new
        let data := match statsFind stats1 user with
          | some d => d
          | none => ParticipantStats.new
        let next := get_next_reward_state_after_roll selected data
        let g2 := { g1 with
          stats := statsSet stats1 user next.2,
          rewards := g1.rewards.set (reward_number - 1) { selected with object_state := next.1 } }
        (Except.ok none, setGiveaway m index g2)

/-- `manager.rs`, `move_reward_to_retrieved`: returns the updated ledger
and the state to store into the reward. -/
def move_reward_to_retrieved (data : ParticipantStats) (reward : Reward) :
    Except String (ParticipantStats × ObjectState) :=
  match reward.object_state with
  | ObjectState.Activated =>
    Except.error "The reward has been activated already."
  | ObjectState.Pending =>
    if reward.id ∈ data.pending_rewards then
      Except.ok ((data.remove_pending_reward reward.id).add_retrieved_reward reward.id,
        ObjectState.Activated)
    else
      Except.error "This reward can\x27t be activated by others."
  | ObjectState.Unused =>
    Except.error "The reward must be rolled before confirming."

/-- `manager.rs`, `rollback_reward_to_unused`. -/
def rollback_reward_to_unused (data : ParticipantStats) (reward : Reward) :
    Except String (ParticipantStats × ObjectState) :=
  match reward.object_state with
  | ObjectState.Activated =>
    Except.error "The reward has been activated already."
  | ObjectState.Pending =>
    if reward.id ∈ data.pending_rewards then
      Except.ok (data.remove_pending_reward reward.id, ObjectState.Unused)
    else
      Except.error "This reward can\x27t be returned by others."
  | ObjectState.Unused =>
    Except.error "The reward must be rolled before return."

/-- `manager.rs`, `confirm_reward`. -/
def confirm_reward (m : GiveawayManager) (user index reward_index : Nat) :
    Except String Unit × GiveawayManager :=
  match get_giveaway_by_index m index with
  | Except.error e => (Except.error e, m)
  | Except.ok g =>
    if !g.active then
      (Except.error "The giveaway hasn\x27t started yet or has been suspended by the owner.", m)
    else
      let g1 := g.update_actions_processed
      if reward_index > 0 ∧ reward_index < g1.rewards.length + 1 then
        match g1.rewards[reward_index - 1]? with
        | none =>
          (Except.error "The requested reward was not found.", setGiveaway m index g1)
        | some selected =>
          match statsFind g1.stats user with
          | some data =>
            match move_reward_to_retrieved data selected with
            | Except.error e => (Except.error e, setGiveaway m index g1)
            | Except.ok res =>
              let g2 := { g1 with
                stats := statsSet g1.stats user res.1,
                rewards := g1.rewards.set (reward_index - 1)
                  { selected with object_state := res.2 } }
              (Except.ok (), setGiveaway m index g2)
          | none =>
            let g2 := { g1 with stats := statsInsert g1.stats user ParticipantStats.new }
            (Except.error "The reward must be rolled before confirming.", setGiveaway m index g2)
      else
        (Except.error "The requested reward was not found.", setGiveaway m index g1)

/-- `manager.rs`, `deny_reward`. -/
def deny_reward (m : GiveawayManager) (user index reward_index : Nat) :
    Except String Unit × GiveawayManager :=
  match get_giveaway_by_index m index with
  | Except.error e => (Except.error e, m)
  | Except.ok g =>
    if !g.active then
      (Except.error "The giveaway hasn\x27t started yet or has been suspended by the owner.", m)
    else
      let g1 := g.update_actions_processed
      if reward_index > 0 ∧ reward_index < g1.rewards.length + 1 then
        match g1.rewards[reward_index - 1]? with
        | none =>
          (Except.error "The requested reward was not found.", setGiveaway m index g1)
        | some selected =>
          match statsFind g1.stats user with
          | some data =>
            match rollback_reward_to_unused data selected with
            | Except.error e => (Except.error e, setGiveaway m index g1)
            | Except.ok res =>
              let g2 := { g1 with
                stats := statsSet g1.stats user res.1,
                rewards := g1.rewards.set (reward_index - 1)
                  { selected with object_state := res.2 } }
              (Except.ok (), setGiveaway m index g2)
          | none =>
            let g2 := { g1 with stats := statsInsert g1.stats user ParticipantStats.new }
            (Except.error "The reward must be rolled before return.", setGiveaway m index g2)
      else
        (Except.error "The requested reward was not found.", setGiveaway m index g1)

/-- `manager.rs`, `delete_giveaway`: index check, then owner check, then
`mark_as_deleted` on the giveaway handle.  The registry collection itself
is never structurally changed by this operation. -/
def delete_giveaway (m : GiveawayManager) (user index : Nat) :
    Except String Unit × GiveawayManager :=
  if index > 0 ∧ index < m.giveaways.length + 1 then
    match m.giveaways[index - 1]? with
    | none => (Except.error "The requested giveaway was not found.", m)
    | some g =>
      if user ≠ g.owner then
        (Except.error "For deleting this giveaway you need to be its owner.", m)
      else
        (Except.ok (), setGiveaway m index g.mark_as_deleted)
  else (Except.error "The requested giveaway was not found.", m)

/-- `manager.rs`, `remove_giveaway_reward`: existence, ownership, then
`Giveaway::remove_reward_by_index`. -/
def remove_giveaway_reward (m : GiveawayManager) (user index reward_index : Nat) :
    Except String Unit × GiveawayManager :=
  match get_giveaway_by_index m index with
  | Except.error e => (Except.error e, m)
  | Except.ok g =>
    if user ≠ g.owner then
      (Except.error "For interacting with this giveaway you need to be its owner.", m)
    else
      match g.remove_reward_by_index reward_index with
      | Except.error e => (Except.error e, m)
      | Except.ok g2 => (Except.ok (), setGiveaway m index g2)

end GiveawayManager

/-! ## Reward text parsing (`util.rs`)

The parser matches the anchored regex
`^(?P<value>[^\[]+)?(?P<object_info>\[.+\])?\s*->\s*(?P<description>.+)?`
against the input when it contains `->`.  The embedding implements this
specific pattern directly with the backtracking semantics of the regex
engine: the optional greedy `value` group tries the longest `[`-free
prefix first; the optional greedy `object_info` group tries the latest
closing bracket first; `\s*` eats a maximal whitespace run (backtracking
into it cannot help, because `-` is not whitespace); the final greedy
`(.+)?` takes the longest run of non-newline characters and is absent when
that run is empty. -/

/-- A character of the Unicode `White_Space` class: what the regex class
`\s` matches and what Rust's `str::trim` removes. -/
def rustIsWhitespace (c : Char) : Bool :=
  ("\t\n\u000B\u000C\r \u0085                 　".data).contains c

/-- Rust `str::trim`. -/
def rustTrim (cs : List Char) : List Char :=
  ((cs.dropWhile rustIsWhitespace).reverse.dropWhile rustIsWhitespace).reverse

/-- Rust `str::contains("->")`. -/
def containsArrow : List Char → Bool
  | [] => false
  | [_] => false
  | '-' :: '>' :: _ => true
  | _ :: rest => containsArrow rest

/-- Matching the pattern suffix `\s*->\s*(.+)?`: on success, the captured
description (if any). -/
def wsArrowMatch (cs : List Char) : Option (Option (List Char)) :=
  match cs.dropWhile rustIsWhitespace with
  | '-' :: '>' :: rest =>
    let afterWs := rest.dropWhile rustIsWhitespace
    let desc := afterWs.takeWhile (fun c => c ≠ '\n')
    some (if desc.isEmpty then none else some desc)
  | _ => none

/-- Matching `(\[.+\])?\s*->\s*(.+)?`: on success, the captured
object_info and description.  The greedy optional bracket group is tried
first, longest content first; skipping the group is the last resort. -/
def tryAfterValue (cs : List Char) : Option (Option (List Char) × Option (List Char)) :=
  let skipped : Option (Option (List Char) × Option (List Char)) :=
    (wsArrowMatch cs).map (fun d => ((none : Option (List Char)), d))
  match cs with
  | '[' :: rest =>
    let cands := (((List.range rest.length).filter (fun k =>
      decide (rest[k]? = some ']') && decide (1 ≤ k) &&
        !((rest.take k).contains '\n')))).reverse
    match cands.findSome? (fun k =>
      (wsArrowMatch (rest.drop (k + 1))).map
        (fun d => (some ('[' :: (rest.take k ++ [']'])), d))) with
    | some res => some res
    | none => skipped
  | _ => skipped

/-- The full anchored pattern: on success, the three captures (value,
object_info, description).  `none` means the regex does not match the
input at all. -/
def regexCaptures (cs : List Char) :
    Option (Option (List Char) × Option (List Char) × Option (List Char)) :=
  let maxv := (cs.takeWhile (fun c => c ≠ '[')).length
  match ((List.range maxv).reverse).findSome? (fun j =>
    (tryAfterValue (cs.drop (j + 1))).map
      (fun p => (some (cs.take (j + 1)), p.1, p.2))) with
  | some res => some res
  | none =>
    (tryAfterValue cs).map (fun p => ((none : Option (List Char)), p.1, p.2))

/-- `util.rs`, `struct ParsedInput`. -/
structure ParsedInput where
  value : String
  description : Option String
  object_info : Option String
  object_type : ObjectType
deriving DecidableEq, Repr

/-- `util.rs`, `parse_message`.  Returns `none` exactly when the source
panics: for a text that contains `->` but is rejected by the anchored
regex (the source calls `.unwrap()` on the capture result). -/
def parse_message (text : String) : Option ParsedInput :=
  if containsArrow text.data then
    match regexCaptures text.data with
    | none => none
    | some (v, info, desc) =>
      some {
        value := match v with
          | some vc => String.mk (rustTrim vc)
          | none => text
        description := desc.map (fun d => String.mk (rustTrim d))
        object_info := info.map (fun i => String.mk (rustTrim i))
        object_type := ObjectType.Key }
  else
    some { value := text, description := none, object_info := none,
           object_type := ObjectType.Other }

/-- Modelled from the spec (§6 mini-grammar), for comparison with
`parse_message`: a text containing `->` is read as
`[value][ [object_info]] -> [description]` with `value` everything before
the optional bracketed segment and before the `->` delimiter, trimmed;
`description` everything after `->`, trimmed; an absent group is `none`,
never an empty string. -/
def parse_message_spec (text : String) : ParsedInput :=
  if containsArrow text.data then
    let split := splitFirstArrow text.data
    let before := split.1
    let after := split.2
    let beforeTrimmed := rustTrim before
    let valuePart :=
      if beforeTrimmed.contains '[' then beforeTrimmed.takeWhile (fun c => c ≠ '[')
      else beforeTrimmed
    let infoPart :=
      if beforeTrimmed.contains '[' then some (beforeTrimmed.dropWhile (fun c => c ≠ '['))
      else none
    let desc := rustTrim after
    { value := String.mk (rustTrim valuePart)
      description := if desc.isEmpty then none else some (String.mk desc)
      object_info := infoPart.map (fun i => String.mk i)
      object_type := ObjectType.Key }
  else
    { value := text, description := none, object_info := none,
      object_type := ObjectType.Other }
where
  /-- The input split at its first `->` occurrence. -/
  splitFirstArrow : List Char → List Char × List Char
    | [] => ([], [])
    | '-' :: '>' :: rest => ([], rest)
    | c :: rest =>
      let p := splitFirstArrow rest
      (c :: p.1, p.2)

/-! ## Reward formatters -/

namespace DefaultRewardFormatter

/-- Rust `str::split(sep)`: every occurrence of the separator splits,
empty fragments included, and `n` separators yield `n + 1` fragments. -/
def splitChar (sep : Char) : List Char → List (List Char)
  | [] => [[]]
  | c :: rest =>
    if c = sep then [] :: splitChar sep rest
    else
      match splitChar sep rest with
      | [] => [[c]]
      | p :: ps => (c :: p) :: ps

/-- `formatters/reward.rs`, `generate_key_with_mask`: replace the final
`-`-delimited fragment of the value by `x` characters of the same
length. -/
def generate_key_with_mask (r : Reward) : String :=
  let key_fragments := (splitChar '-' r.value.data).map String.mk
  let parts_count := key_fragments.length
  let key_with_mask := key_fragments.mapIdx (fun index frag =>
    if index = parts_count - 1 then String.mk (frag.data.map (fun _ => 'x')) else frag)
  String.intercalate "-" key_with_mask

/-- `formatters/reward.rs`, `DefaultRewardFormatter::pretty_print`. -/
def pretty_print (r : Reward) : String :=
  let text := match r.object_type with
    | ObjectType.Key | ObjectType.KeyPreorder =>
      let masked_key :=
        if r.object_state = ObjectState.Unused then generate_key_with_mask r else r.value
      let key := match r.object_info with
        | some info => masked_key ++ " " ++ info
        | none => masked_key
      match r.object_state with
      | ObjectState.Activated =>
        r.object_state.as_str ++ " " ++ key ++ " -> " ++ r.description.getD ""
      | _ => r.object_state.as_str ++ " " ++ key
    | ObjectType.Other =>
      r.object_state.as_str ++ " " ++ r.value ++ r.description.getD ""
  if r.object_state = ObjectState.Activated then "~~" ++ text ++ "~~" else text

/-- `formatters/reward.rs`, `DefaultRewardFormatter::debug_print`. -/
def debug_print (r : Reward) : String :=
  match r.object_type with
  | ObjectType.Key | ObjectType.KeyPreorder =>
    let key := match r.object_info with
      | some info => r.value ++ " " ++ info
      | none => r.value
    key ++ " -> " ++ r.description.getD ""
  | ObjectType.Other => r.value ++ r.description.getD ""

end DefaultRewardFormatter

/-- `models.rs`, `Reward::pretty_print`: the reward's own stylized print.
Unlike the formatter's, it applies no masking in any state. -/
def Reward.pretty_print (r : Reward) : String :=
  let text := match r.object_type with
    | ObjectType.Key | ObjectType.KeyPreorder =>
      let key := match r.object_info with
        | some info => r.value ++ " " ++ info
        | none => r.value
      match r.object_state with
      | ObjectState.Activated =>
        r.object_state.as_str ++ " " ++ key ++ " -> " ++ r.description.getD ""
      | _ => r.object_state.as_str ++ " " ++ key
    | ObjectType.Other =>
      r.object_state.as_str ++ " " ++ r.value ++ r.description.getD ""
  if r.object_state = ObjectState.Activated then "~~" ++ text ++ "~~" else text

/-- The participant-facing manager operations the reward state machine is
driven by: `roll_reward`, `confirm_reward` and `deny_reward`. -/
inductive ManagerOp where
  | roll (user index reward_number : Nat)
  | confirm (user index reward_index : Nat)
  | deny (user index reward_index : Nat)
deriving DecidableEq, Repr

/-- Dispatch of a `ManagerOp`, returning whether the call failed together
with the manager state after the call. -/
def applyOp (m : GiveawayManager) : ManagerOp → Except String Unit × GiveawayManager
  | ManagerOp.roll u i n =>
    let r := m.roll_reward u i n
    (r.1.map (fun _ => ()), r.2)
  | ManagerOp.confirm u i n => m.confirm_reward u i n
  | ManagerOp.deny u i n => m.deny_reward u i n

/-! ## Concrete states used by witnesses and counterexamples -/

/-- A store-key reward as in the repository's own tests. -/
def keyReward : Reward :=
  ⟨1, "AAAAA-BBBBB-CCCCC-DDDD", some "Some game", some "[Store]",
    ObjectType.Key, ObjectState.Unused⟩

/-- A plain-text reward. -/
def plainReward : Reward :=
  ⟨2, "something", none, none, ObjectType.Other, ObjectState.Unused⟩

/-- A pre-order reward. -/
def preorderReward : Reward :=
  ⟨3, "AAAAA-BBBBB-CCCCC", some "Pre-order something", none,
    ObjectType.KeyPreorder, ObjectState.Unused⟩

/-- The key reward after a roll by user 7. -/
def pendingKeyReward : Reward := { keyReward with object_state := ObjectState.Pending }

/-- A giveaway in which user 7 holds `keyReward` pending. -/
def exPendingGiveaway : Giveaway :=
  ⟨true, 1, "test giveaway", [pendingKeyReward, plainReward],
    [(7, ⟨{1}, ∅⟩)], 0, false⟩

/-! ## C10: frame effect of reward removal -/

/-- A reward list element together with its position. -/
theorem mem_eraseIdx_getElem {l : List Reward} {i : Nat} {r2 : Reward}
    (h : r2 ∈ l.eraseIdx i) : ∃ j, j ≠ i ∧ l[j]? = some r2 := by
  obtain ⟨j, hj⟩ := List.getElem?_of_mem h
  by_cases hle : i ≤ j
  · refine ⟨j + 1, by omega, ?_⟩
    rwa [List.getElem?_eraseIdx_of_ge l i j hle] at hj
  · refine ⟨j, by omega, ?_⟩
    rwa [List.getElem?_eraseIdx_of_lt l i j (by omega)] at hj

/-- Distinct positions of a list with `Nodup` mapped ids carry distinct
ids. -/
theorem nodup_id_getElem_ne {l : List Reward} (hnd : (l.map Reward.id).Nodup)
    {i j : Nat} {r r2 : Reward} (hij : i ≠ j)
    (hi : l[i]? = some r) (hj : l[j]? = some r2) : r2.id ≠ r.id := by
  intro he
  have hi2 : (l.map Reward.id)[i]? = some r.id := by simp [hi]
  have hj2 : (l.map Reward.id)[j]? = some r.id := by simp [hj, he]
  have hlen : i < (l.map Reward.id).length := by
    have := (List.getElem?_eq_some.mp hi).1
    simpa using this
  exact hij (List.getElem?_inj hlen hnd (hi2.trans hj2.symm))

/-- C10: `remove_reward_by_index` with a valid 1-based index removes
exactly that element of the rewards collection, shifting later rewards
down, and changes nothing else — in particular no participant ledger
changes, so a removed Pending reward's id stays in the claimant's pending
set while no remaining reward carries that id. -/
theorem c10_remove_reward_frame (g g2 : Giveaway) (index : Nat)
    (hok : g.remove_reward_by_index index = Except.ok g2) :
    g2.rewards = g.rewards.eraseIdx (index - 1) ∧
    g2.stats = g.stats ∧
    g2.active = g.active ∧
    g2.owner = g.owner ∧
    g2.actions_processed = g.actions_processed ∧
    (index > 0 ∧ index < g.rewards.length + 1) ∧
    g2.rewards.length + 1 = g.rewards.length ∧
    (∀ j, j + 1 < index → g2.rewards[j]? = g.rewards[j]?) ∧
    (∀ j, index - 1 ≤ j → g2.rewards[j]? = g.rewards[j + 1]?) ∧
    (∀ u d id, statsFind g.stats u = some d → id ∈ d.pending_rewards →
      statsFind g2.stats u = some d ∧ id ∈ d.pending_rewards) ∧
    (∀ r, g.rewards[index - 1]? = some r → (g.rewards.map Reward.id).Nodup →
      ∀ r2 ∈ g2.rewards, r2.id ≠ r.id) := by
  unfold Giveaway.remove_reward_by_index at hok
  split at hok
  case isFalse => exact absurd hok (by simp)
  case isTrue hb =>
    have hg2 : g2 = { g with rewards := g.rewards.eraseIdx (index - 1) } := by
      cases hok; rfl
    subst hg2
    refine ⟨rfl, rfl, rfl, rfl, rfl, hb, ?_, ?_, ?_, ?_, ?_⟩
    · have : index - 1 < g.rewards.length := by omega
      simp only [List.length_eraseIdx, if_pos this]
      omega
    · intro j hj
      exact List.getElem?_eraseIdx_of_lt _ _ _ (by omega)
    · intro j hj
      exact List.getElem?_eraseIdx_of_ge _ _ _ hj
    · intro u d id hf hm
      exact ⟨hf, hm⟩
    · intro r hr hnd r2 hr2
      obtain ⟨j, hji, hj⟩ := mem_eraseIdx_getElem hr2
      exact nodup_id_getElem_ne hnd (Ne.symm hji) hr hj

/-- The state after removing the pending reward from
`exPendingGiveaway`. -/
def exAfterRemoval : Giveaway := { exPendingGiveaway with rewards := [plainReward] }

/-- Witness for C10 at a concrete giveaway: removing the Pending reward
succeeds, the stats ledger is untouched, and the removed id survives in
user 7's pending set while no remaining reward carries it. -/
theorem c10_remove_reward_frame_witness :
    exPendingGiveaway.remove_reward_by_index 1 = Except.ok exAfterRemoval ∧
    exAfterRemoval.stats = exPendingGiveaway.stats ∧
    (∀ r2 ∈ exAfterRemoval.rewards, r2.id ≠ pendingKeyReward.id) := by
  have h := c10_remove_reward_frame exPendingGiveaway exAfterRemoval 1 (by rfl)
  exact ⟨by rfl, h.2.1, h.2.2.2.2.2.2.2.2.2.2 pendingKeyReward (by rfl) (by decide)⟩

/-! ## C7: deleting a giveaway -/

/-- C7 (amended): `delete_giveaway` checks existence then ownership with
distinct error messages; on success it only sets the giveaway's `deleted`
flag through its handle — the registry collection keeps its length and
every position, including the deleted giveaway's. -/
theorem c7_delete_giveaway_amended (m : GiveawayManager) (user index : Nat) :
    (¬(index > 0 ∧ index < m.giveaways.length + 1) →
      m.delete_giveaway user index =
        (Except.error "The requested giveaway was not found.", m)) ∧
    (∀ g, (index > 0 ∧ index < m.giveaways.length + 1) →
      m.giveaways[index - 1]? = some g → user ≠ g.owner →
      m.delete_giveaway user index =
        (Except.error "For deleting this giveaway you need to be its owner.", m)) ∧
    (∀ g, (index > 0 ∧ index < m.giveaways.length + 1) →
      m.giveaways[index - 1]? = some g → user = g.owner →
      (m.delete_giveaway user index).1 = Except.ok () ∧
      (m.delete_giveaway user index).2.giveaways =
        m.giveaways.set (index - 1) { g with deleted := true } ∧
      (m.delete_giveaway user index).2.get_giveaways.length =
        m.get_giveaways.length ∧
      (∀ j, j ≠ index - 1 →
        (m.delete_giveaway user index).2.giveaways[j]? = m.giveaways[j]?) ∧
      (m.delete_giveaway user index).2.giveaways[index - 1]? =
        some { g with deleted := true }) := by
  refine ⟨?_, ?_, ?_⟩
  · intro hb
    unfold GiveawayManager.delete_giveaway
    rw [if_neg hb]
  · intro g hb hg hown
    unfold GiveawayManager.delete_giveaway
    rw [if_pos hb, hg]
    simp only [if_pos hown]
  · intro g hb hg hown
    have hidx : index - 1 < m.giveaways.length := by omega
    unfold GiveawayManager.delete_giveaway
    rw [if_pos hb, hg]
    simp only []
    rw [if_neg (fun hc => hc hown)]
    refine ⟨rfl, rfl, ?_, ?_, ?_⟩
    · simp [GiveawayManager.get_giveaways, GiveawayManager.setGiveaway,
        Giveaway.mark_as_deleted]
    · intro j hj
      simp only [GiveawayManager.setGiveaway]
      exact List.getElem?_set_ne (Ne.symm hj)
    · simp only [GiveawayManager.setGiveaway, Giveaway.mark_as_deleted]
      exact List.getElem?_set_self hidx

/-- A giveaway owned by user 1 with no rewards. -/
def exG7 : Giveaway := ⟨false, 1, "test giveaway", [], [], 0, false⟩

/-- A one-giveaway registry owned by user 1. -/
def exM7 : GiveawayManager := ⟨[exG7]⟩

/-- Counterexample for C7 as stated: the owner's delete succeeds, yet the
registry still lists one giveaway — the collection length does not
decrease. -/
theorem c7_counterexample :
    (exM7.delete_giveaway 1 1).1 = Except.ok () ∧
    exM7.get_giveaways.length = 1 ∧
    (exM7.delete_giveaway 1 1).2.get_giveaways.length = 1 := by
  exact ⟨rfl, rfl, rfl⟩

/-- Witness for C7 (amended) at the concrete registry `exM7`: a non-owner
delete fails with the ownership error and an out-of-range delete fails
with the not-found error, while the owner's delete leaves the registry
length unchanged. -/
theorem c7_delete_giveaway_witness :
    exM7.delete_giveaway 2 1 =
      (Except.error "For deleting this giveaway you need to be its owner.", exM7) ∧
    exM7.delete_giveaway 1 2 =
      (Except.error "The requested giveaway was not found.", exM7) ∧
    (exM7.delete_giveaway 1 1).2.get_giveaways.length = exM7.get_giveaways.length := by
  refine ⟨?_, ?_, ?_⟩
  · exact (c7_delete_giveaway_amended exM7 2 1).2.1 exG7 (by decide) (by rfl) (by decide)
  · exact (c7_delete_giveaway_amended exM7 1 2).1 (by decide)
  · exact ((c7_delete_giveaway_amended exM7 1 1).2.2 exG7 (by decide) (by rfl) rfl).2.2.1

/-! ## Stats map lemmas -/

theorem statsFind_nil (v : Nat) : statsFind [] v = none := rfl

theorem statsFind_cons (p : Nat × ParticipantStats) (t : Stats) (v : Nat) :
    statsFind (p :: t) v = if p.1 = v then some p.2 else statsFind t v := by
  unfold statsFind
  by_cases hv : p.1 = v
  · rw [List.find?_cons_of_pos _ (by simpa using hv), if_pos hv]
    rfl
  · rw [List.find?_cons_of_neg _ (by simpa using hv), if_neg hv]

theorem statsSet_cons (p : Nat × ParticipantStats) (t : Stats) (u : Nat)
    (d : ParticipantStats) :
    statsSet (p :: t) u d = (if p.1 = u then (p.1, d) else p) :: statsSet t u d := rfl

theorem statsFind_statsSet_self {s : Stats} {u : Nat} {d0 d : ParticipantStats}
    (h : statsFind s u = some d0) : statsFind (statsSet s u d) u = some d := by
  induction s with
  | nil => simp [statsFind_nil] at h
  | cons p t ih =>
    rw [statsFind_cons] at h
    rw [statsSet_cons]
    by_cases hp : p.1 = u
    · rw [if_pos hp, statsFind_cons, if_pos hp]
    · rw [if_neg hp, statsFind_cons, if_neg hp]
      rw [if_neg hp] at h
      exact ih h

theorem statsFind_statsSet_ne {s : Stats} {u v : Nat} {d : ParticipantStats}
    (h : v ≠ u) : statsFind (statsSet s u d) v = statsFind s v := by
  induction s with
  | nil => rfl
  | cons p t ih =>
    rw [statsSet_cons, statsFind_cons, statsFind_cons]
    by_cases hp : p.1 = u
    · rw [if_pos hp]
      have hv : ¬p.1 = v := by rw [hp]; exact fun he => h he.symm
      rw [if_neg (by simpa using hv), if_neg hv]
      exact ih
    · rw [if_neg hp]
      by_cases hv : p.1 = v
      · rw [if_pos hv, if_pos hv]
      · rw [if_neg hv, if_neg hv]
        exact ih

theorem statsFind_append (s t : Stats) (v : Nat) :
    statsFind (s ++ t) v = ((List.find? (fun p => p.1 = v) s).or
      (List.find? (fun p => p.1 = v) t)).map (fun p => p.2) := by
  unfold statsFind
  rw [List.find?_append]

theorem statsFind_statsInsert_self (s : Stats) (u : Nat) (d : ParticipantStats) :
    statsFind (statsInsert s u d) u = some d := by
  unfold statsInsert
  split
  case isTrue h =>
    obtain ⟨p, hp⟩ := Option.isSome_iff_exists.mp h
    have hfind : statsFind s u = some p.2 := by unfold statsFind; rw [hp]; rfl
    exact statsFind_statsSet_self hfind
  case isFalse h =>
    rw [statsFind_append]
    rw [Option.not_isSome_iff_eq_none] at h
    rw [h, Option.none_or]
    rw [List.find?_cons_of_pos _ (by simp)]
    rfl

theorem statsFind_statsInsert_ne {s : Stats} {u v : Nat} {d : ParticipantStats}
    (h : v ≠ u) : statsFind (statsInsert s u d) v = statsFind s v := by
  unfold statsInsert
  split
  · exact statsFind_statsSet_ne h
  · rw [statsFind_append]
    rw [List.find?_cons_of_neg _ (by simpa using fun he => h he.symm)]
    rw [List.find?_nil, Option.or_none]
    rfl

/-! ## C3: the confirm operation, case by case -/

/-- C3: on an active giveaway, `confirm_reward` resolves the reward by
1-based index and behaves exactly by cases: out-of-range index, missing
stats entry, Activated reward, Unused reward, Pending reward owned by
someone else, and the successful Pending-and-owned case in which the id
moves from the caller's pending set to the retrieved set and the reward
becomes Activated. -/
theorem c3_confirm_cases (m : GiveawayManager) (user index reward_index : Nat)
    (g : Giveaway)
    (hb : index > 0 ∧ index < m.giveaways.length + 1)
    (hg : m.giveaways[index - 1]? = some g)
    (hact : g.active = true) :
    (¬(reward_index > 0 ∧ reward_index < g.rewards.length + 1) →
      (m.confirm_reward user index reward_index).1 =
        Except.error "The requested reward was not found.") ∧
    (∀ r, (reward_index > 0 ∧ reward_index < g.rewards.length + 1) →
      g.rewards[reward_index - 1]? = some r →
      ((statsFind g.stats user = none →
        (m.confirm_reward user index reward_index).1 =
          Except.error "The reward must be rolled before confirming.") ∧
      (∀ d, statsFind g.stats user = some d →
        (r.object_state = ObjectState.Activated →
          (m.confirm_reward user index reward_index).1 =
            Except.error "The reward has been activated already.") ∧
        (r.object_state = ObjectState.Unused →
          (m.confirm_reward user index reward_index).1 =
            Except.error "The reward must be rolled before confirming.") ∧
        (r.object_state = ObjectState.Pending → r.id ∉ d.pending_rewards →
          (m.confirm_reward user index reward_index).1 =
            Except.error "This reward can\x27t be activated by others.") ∧
        (r.object_state = ObjectState.Pending → r.id ∈ d.pending_rewards →
          (m.confirm_reward user index reward_index).1 = Except.ok () ∧
          ∀ g2, (m.confirm_reward user index reward_index).2.giveaways[index - 1]? = some g2 →
            statsFind g2.stats user =
              some ⟨d.pending_rewards.erase r.id, insert r.id d.retrieved_rewards⟩ ∧
            g2.rewards[reward_index - 1]? =
              some { r with object_state := ObjectState.Activated })))) := by
  have hresolve : m.get_giveaway_by_index index = Except.ok g := by
    unfold GiveawayManager.get_giveaway_by_index
    rw [if_pos hb, hg]
  have hidx : index - 1 < m.giveaways.length := by omega
  unfold GiveawayManager.confirm_reward
  rw [hresolve]
  simp only [hact, Bool.not_true, Bool.false_eq_true, if_false]
  constructor
  · intro hnb
    rw [if_neg (by simpa [Giveaway.update_actions_processed] using hnb)]
  · intro r hib hr
    rw [if_pos (by simpa [Giveaway.update_actions_processed] using hib)]
    have hr1 : (Giveaway.update_actions_processed g).rewards[reward_index - 1]? = some r := hr
    simp only [hr1]
    constructor
    · intro hnone
      have hn1 : statsFind (Giveaway.update_actions_processed g).stats user = none := hnone
      simp only [hn1]
    · intro d hd
      have hd1 : statsFind (Giveaway.update_actions_processed g).stats user = some d := hd
      simp only [hd1, GiveawayManager.move_reward_to_retrieved]
      refine ⟨?_, ?_, ?_, ?_⟩
      · intro hs
        simp only [hs]
      · intro hs
        simp only [hs]
      · intro hs hnotin
        simp only [hs, if_neg hnotin]
      · intro hs hin
        simp only [hs, if_pos hin]
        refine ⟨by trivial, ?_⟩
        intro g2 hg2
        rw [GiveawayManager.setGiveaway] at hg2
        rw [List.getElem?_set_self hidx] at hg2
        cases hg2
        constructor
        · exact statsFind_statsSet_self hd1
        · have hri : reward_index - 1 < g.rewards.length := by omega
          exact List.getElem?_set_self (by simpa [Giveaway.update_actions_processed] using hri)

/-- A registry holding `exPendingGiveaway` (user 7 holds reward 1
pending). -/
def exM3 : GiveawayManager := ⟨[exPendingGiveaway]⟩

/-- Witness for C3 at a concrete registry: user 7 confirming the Pending
reward succeeds and moves the id into the retrieved set, while user 9 (no
stats entry) gets the must-be-rolled error and an out-of-range index gets
the not-found error. -/
theorem c3_confirm_cases_witness :
    (exM3.confirm_reward 7 1 1).1 = Except.ok () ∧
    (exM3.confirm_reward 9 1 1).1 =
      Except.error "The reward must be rolled before confirming." ∧
    (exM3.confirm_reward 7 1 5).1 =
      Except.error "The requested reward was not found." := by
  refine ⟨?_, ?_, ?_⟩
  · exact (((((c3_confirm_cases exM3 7 1 1 exPendingGiveaway (by decide) (by rfl)
      (by rfl)).2 pendingKeyReward (by decide) (by rfl)).2 ⟨{1}, ∅⟩
      (by rfl)).2.2.2) (by rfl) (by decide)).1
  · exact ((c3_confirm_cases exM3 9 1 1 exPendingGiveaway (by decide) (by rfl)
      (by rfl)).2 pendingKeyReward (by decide) (by rfl)).1 (by rfl)
  · exact (c3_confirm_cases exM3 7 1 5 exPendingGiveaway (by decide) (by rfl)
      (by rfl)).1 (by decide)

/-! ## C4: manual-select roll check ordering -/

/-- The caller's pending set as read by the duplicate-pending check. -/
def pendingOf (stats : Stats) (user : Nat) : Finset Nat :=
  match statsFind stats user with
  | some d => d.pending_rewards
  | none => ∅

/-- The duplicate-pending condition: the caller holds a reward whose own
state is Pending and whose id is in the caller's pending set. -/
def holdsPending (user : Nat) (stats : Stats) (rewards : List Reward) : Prop :=
  ∃ r ∈ rewards, r.object_state = ObjectState.Pending ∧ r.id ∈ pendingOf stats user

instance (user : Nat) (stats : Stats) (rewards : List Reward) :
    Decidable (holdsPending user stats rewards) := by
  unfold holdsPending; infer_instance

theorem check2_error {user : Nat} {stats : Stats} {rewards : List Reward}
    (h : holdsPending user stats rewards) :
    ManualSelectStrategy.check_user_has_pending_rewards user stats rewards =
      Except.error "It\x27s not possible to have more than one reward in the pending state. Please, activate previous reward, or invoke the `!greroll` command." := by
  obtain ⟨r, hmem, hpend, hin⟩ := h
  unfold ManualSelectStrategy.check_user_has_pending_rewards
  rw [if_pos]
  have : r ∈ rewards.filter (fun r =>
      decide (r.object_state = ObjectState.Pending) &&
        decide (r.id ∈ pendingOf stats user)) := by
    rw [List.mem_filter]
    exact ⟨hmem, by simp [hpend, hin]⟩
  have hlen := List.length_pos.mpr (List.ne_nil_of_mem this)
  exact hlen

theorem check2_ok {user : Nat} {stats : Stats} {rewards : List Reward}
    (h : ¬holdsPending user stats rewards) :
    ManualSelectStrategy.check_user_has_pending_rewards user stats rewards =
      Except.ok () := by
  unfold ManualSelectStrategy.check_user_has_pending_rewards
  rw [if_neg]
  intro hlen
  obtain ⟨r, hr⟩ := List.exists_mem_of_length_pos hlen
  rw [List.mem_filter] at hr
  refine h ⟨r, hr.1, ?_, ?_⟩
  · have := hr.2; simp at this; exact this.1
  · have := hr.2; simp at this; exact this.2

theorem check3_error {rewards : List Reward}
    (h : ∀ r ∈ rewards, r.object_state ≠ ObjectState.Unused) :
    ManualSelectStrategy.check_no_unused_rewards rewards =
      Except.error "All possible rewards have been handed out." := by
  unfold ManualSelectStrategy.check_no_unused_rewards
  rw [if_pos]
  rw [List.isEmpty_iff, List.filter_eq_nil_iff]
  intro r hr
  simpa using h r hr

theorem check3_ok {rewards : List Reward} {r : Reward} (hmem : r ∈ rewards)
    (h : r.object_state = ObjectState.Unused) :
    ManualSelectStrategy.check_no_unused_rewards rewards = Except.ok () := by
  unfold ManualSelectStrategy.check_no_unused_rewards
  rw [if_neg]
  rw [List.isEmpty_iff]
  intro hnil
  have : r ∈ rewards.filter (fun r => decide (r.object_state = ObjectState.Unused)) := by
    rw [List.mem_filter]
    exact ⟨hmem, by simp [h]⟩
  rw [hnil] at this
  exact absurd this (List.not_mem_nil r)

theorem check1_error {rewards : List Reward} (h : rewards = []) :
    ManualSelectStrategy.check_rewards_are_defined rewards =
      Except.error "The giveaway doesn\x27t have any rewards. Please, add rewards or ask to do an owner." := by
  unfold ManualSelectStrategy.check_rewards_are_defined
  rw [if_pos (by simp [h])]

theorem check1_ok {rewards : List Reward} (h : rewards ≠ []) :
    ManualSelectStrategy.check_rewards_are_defined rewards = Except.ok () := by
  unfold ManualSelectStrategy.check_rewards_are_defined
  rw [if_neg (fun h0 => h (List.length_eq_zero.mp h0))]

/-- Unfolding of the do-chain of `roll` into explicit matches. -/
theorem roll_unfold (user : Nat) (stats : Stats) (rewards : List Reward)
    (locator : Option Nat) :
    ManualSelectStrategy.roll user stats rewards locator =
      match ManualSelectStrategy.check_rewards_are_defined rewards with
      | Except.error e => Except.error e
      | Except.ok _ =>
        match ManualSelectStrategy.check_user_has_pending_rewards user stats rewards with
        | Except.error e => Except.error e
        | Except.ok _ =>
          match ManualSelectStrategy.check_no_unused_rewards rewards with
          | Except.error e => Except.error e
          | Except.ok _ => ManualSelectStrategy.get_reward rewards locator := by
  unfold ManualSelectStrategy.roll
  rcases ManualSelectStrategy.check_rewards_are_defined rewards with e | u
  · rfl
  · cases u
    rcases ManualSelectStrategy.check_user_has_pending_rewards user stats rewards with e | u
    · rfl
    · cases u
      rcases ManualSelectStrategy.check_no_unused_rewards rewards with e | u
      · rfl
      · cases u
        rfl

/-- Unfolding of `get_reward` at a parsed locator. -/
theorem get_reward_some (rewards : List Reward) (k : Nat) :
    ManualSelectStrategy.get_reward rewards (some k) =
      if k > 0 ∧ k < rewards.length + 1 then
        match rewards[k - 1]? with
        | some reward =>
          if reward.object_state ≠ ObjectState.Unused then
            Except.error "This reward has already been taken by someone."
          else Except.ok reward
        | none => Except.error "The requested reward was not found."
      else Except.error "The requested reward was not found." := rfl

/-- C4 (amended): the manual-select roll runs its four checks in order,
each short-circuiting with its specific error: empty collection, then
duplicate-pending (for any locator, malformed ones included), then
all-handed-out, then the index checks — a malformed locator yields the
positive-integer error, an out-of-range index yields not-found, an
in-range non-Unused reward yields already-taken, and an in-range Unused
reward is returned; consequently a malformed or out-of-range locator
never yields the already-taken error. -/
theorem c4_roll_checks_amended (user : Nat) (stats : Stats) (rewards : List Reward)
    (locator : Option Nat) :
    (rewards = [] →
      ManualSelectStrategy.roll user stats rewards locator =
        Except.error "The giveaway doesn\x27t have any rewards. Please, add rewards or ask to do an owner.") ∧
    (holdsPending user stats rewards →
      ManualSelectStrategy.roll user stats rewards locator =
        Except.error "It\x27s not possible to have more than one reward in the pending state. Please, activate previous reward, or invoke the `!greroll` command.") ∧
    (rewards ≠ [] → ¬holdsPending user stats rewards →
      (∀ r ∈ rewards, r.object_state ≠ ObjectState.Unused) →
      ManualSelectStrategy.roll user stats rewards locator =
        Except.error "All possible rewards have been handed out.") ∧
    (∀ ru ∈ rewards, ru.object_state = ObjectState.Unused →
      ¬holdsPending user stats rewards →
      ((locator = none →
        ManualSelectStrategy.roll user stats rewards locator =
          Except.error "The request reward index must be a positive integer.") ∧
      (∀ k, locator = some k → ¬(k > 0 ∧ k < rewards.length + 1) →
        ManualSelectStrategy.roll user stats rewards locator =
          Except.error "The requested reward was not found.") ∧
      (∀ k r, locator = some k → (k > 0 ∧ k < rewards.length + 1) →
        rewards[k - 1]? = some r → r.object_state ≠ ObjectState.Unused →
        ManualSelectStrategy.roll user stats rewards locator =
          Except.error "This reward has already been taken by someone.") ∧
      (∀ k r, locator = some k → (k > 0 ∧ k < rewards.length + 1) →
        rewards[k - 1]? = some r → r.object_state = ObjectState.Unused →
        ManualSelectStrategy.roll user stats rewards locator = Except.ok r))) ∧
    ((locator = none ∨ ∃ k, locator = some k ∧ ¬(k > 0 ∧ k < rewards.length + 1)) →
      ∀ e, ManualSelectStrategy.roll user stats rewards locator = Except.error e →
        e ≠ "This reward has already been taken by someone.") := by
  refine ⟨?_, ?_, ?_, ?_, ?_⟩
  · intro hnil
    unfold ManualSelectStrategy.roll ManualSelectStrategy.check_rewards_are_defined
    rw [hnil]
    rfl
  · intro hdup
    have hne : rewards ≠ [] := by
      obtain ⟨r, hr, _⟩ := hdup
      exact List.ne_nil_of_mem hr
    unfold ManualSelectStrategy.roll ManualSelectStrategy.check_rewards_are_defined
    rw [if_neg (fun h0 => hne (List.length_eq_zero.mp h0))]
    simp only [check2_error hdup]
    rfl
  · intro hne hnodup hall
    unfold ManualSelectStrategy.roll ManualSelectStrategy.check_rewards_are_defined
    rw [if_neg (fun h0 => hne (List.length_eq_zero.mp h0))]
    simp only [check2_ok hnodup]
    simp only [check3_error hall]
    rfl
  · intro ru hrumem hru hnodup
    have hne : rewards ≠ [] := List.ne_nil_of_mem hrumem
    have hstep : ∀ loc2, ManualSelectStrategy.roll user stats rewards loc2 =
        ManualSelectStrategy.get_reward rewards loc2 := by
      intro loc2
      unfold ManualSelectStrategy.roll ManualSelectStrategy.check_rewards_are_defined
      rw [if_neg (fun h0 => hne (List.length_eq_zero.mp h0))]
      simp only [check2_ok hnodup, check3_ok hrumem hru]
      rfl
    refine ⟨?_, ?_, ?_, ?_⟩
    · intro hloc
      rw [hstep locator, hloc]
      rfl
    · intro k hloc hnb
      rw [hstep locator, hloc, get_reward_some]
      rw [if_neg hnb]
    · intro k r hloc hb hr hstate
      rw [hstep locator, hloc, get_reward_some]
      rw [if_pos hb]
      simp only [hr]
      rw [if_pos (by simpa using hstate)]
    · intro k r hloc hb hr hstate
      rw [hstep locator, hloc, get_reward_some]
      rw [if_pos hb]
      simp only [hr]
      rw [if_neg (by simp [hstate])]
  · intro hbad e herr
    rw [roll_unfold user stats rewards locator] at herr
    by_cases h1 : rewards = []
    · simp only [check1_error h1] at herr
      cases herr
      decide
    · simp only [check1_ok h1] at herr
      by_cases h2 : holdsPending user stats rewards
      · simp only [check2_error h2] at herr
        cases herr
        decide
      · simp only [check2_ok h2] at herr
        by_cases h3 : ∀ r ∈ rewards, r.object_state ≠ ObjectState.Unused
        · simp only [check3_error h3] at herr
          cases herr
          decide
        · push_neg at h3
          obtain ⟨ru, hrumem, hru⟩ := h3
          simp only [check3_ok hrumem (by simpa using hru)] at herr
          rcases hbad with hnone | ⟨k, hk, hnb⟩
          · rw [hnone] at herr
            cases herr
            decide
          · rw [hk, get_reward_some, if_neg hnb] at herr
            cases herr
            decide

/-- Counterexample for C4 as stated: with a single Unused reward present,
a malformed locator is rejected with the positive-integer error, not the
claimed generic not-found error. -/
theorem c4_counterexample :
    ManualSelectStrategy.roll 7 [] [plainReward] none =
      Except.error "The request reward index must be a positive integer." ∧
    ("The request reward index must be a positive integer." : String) ≠
      "The requested reward was not found." := by
  exact ⟨rfl, by decide⟩

/-- Witness for C4 (amended) at concrete states: a caller who holds a
Pending reward gets the duplicate-pending error even for a malformed
locator; an out-of-range index on a fresh giveaway yields not-found,
never already-taken. -/
theorem c4_roll_checks_witness :
    ManualSelectStrategy.roll 7 exPendingGiveaway.stats exPendingGiveaway.rewards none =
      Except.error "It\x27s not possible to have more than one reward in the pending state. Please, activate previous reward, or invoke the `!greroll` command." ∧
    ManualSelectStrategy.roll 9 [] [plainReward] (some 5) =
      Except.error "The requested reward was not found." := by
  constructor
  · exact (c4_roll_checks_amended 7 exPendingGiveaway.stats exPendingGiveaway.rewards
      none).2.1 (by decide)
  · exact ((c4_roll_checks_amended 9 [] [plainReward] (some 5)).2.2.2.1 plainReward
      (by decide) (by decide) (by decide)).2.1 5 rfl (by decide)

/-! ## C2: classification of a successful roll -/

theorem get_giveaway_by_index_ok {m : GiveawayManager} {index : Nat} {g : Giveaway}
    (h : m.get_giveaway_by_index index = Except.ok g) :
    (index > 0 ∧ index < m.giveaways.length + 1) ∧ m.giveaways[index - 1]? = some g := by
  unfold GiveawayManager.get_giveaway_by_index at h
  split at h
  case isTrue hb =>
    refine ⟨hb, ?_⟩
    rcases hg : m.giveaways[index - 1]? with _ | g0
    · rw [hg] at h; cases h
    · rw [hg] at h; cases h; rfl
  case isFalse hb => cases h

/-- Inversion of a successful manual-strategy roll: the locator parsed to
an in-range index whose reward is Unused, and that reward is returned. -/
theorem roll_ok_inv {user : Nat} {stats : Stats} {rewards : List Reward}
    {locator : Option Nat} {r : Reward}
    (h : ManualSelectStrategy.roll user stats rewards locator = Except.ok r) :
    ∃ k, locator = some k ∧ (k > 0 ∧ k < rewards.length + 1) ∧
      rewards[k - 1]? = some r ∧ r.object_state = ObjectState.Unused := by
  rw [roll_unfold] at h
  rcases hc1 : ManualSelectStrategy.check_rewards_are_defined rewards with e | u
  · simp only [hc1] at h
    cases h
  · cases u; simp only [hc1] at h
    rcases hc2 : ManualSelectStrategy.check_user_has_pending_rewards user stats rewards
      with e | u
    · simp only [hc2] at h
      cases h
    · cases u; simp only [hc2] at h
      rcases hc3 : ManualSelectStrategy.check_no_unused_rewards rewards with e | u
      · simp only [hc3] at h
        cases h
      · cases u; simp only [hc3] at h
        rcases locator with _ | k
        · cases h
        · refine ⟨k, rfl, ?_⟩
          rw [get_reward_some] at h
          by_cases hb : k > 0 ∧ k < rewards.length + 1
          · rw [if_pos hb] at h
            rcases hr : rewards[k - 1]? with _ | r0
            · simp only [hr] at h
              cases h
            · simp only [hr] at h
              by_cases hs : r0.object_state ≠ ObjectState.Unused
              · rw [if_pos hs] at h
                cases h
              · rw [if_neg hs] at h
                cases h
                refine ⟨hb, rfl, ?_⟩
                simpa using hs
          · rw [if_neg hb] at h
            cases h

/-- C2: a successful `roll_reward` on an active giveaway selects the
Unused reward at the 1-based position; a pre-order reward goes directly
Unused→Activated and its id lands in the caller's retrieved set, any
other reward goes Unused→Pending and its id lands in the caller's
pending set; the caller's stats entry is created lazily when absent. -/
theorem c2_roll_classifies (m m' : GiveawayManager) (user index reward_number : Nat)
    (msg : Except String (Option String))
    (h : m.roll_reward user index reward_number = (msg, m')) (hok : msg.isOk = true) :
    ∃ g r, (index > 0 ∧ index < m.giveaways.length + 1) ∧
      m.giveaways[index - 1]? = some g ∧ g.active = true ∧
      g.rewards[reward_number - 1]? = some r ∧
      r.object_state = ObjectState.Unused ∧
      (∀ g2, m'.giveaways[index - 1]? = some g2 →
        g2.rewards[reward_number - 1]? = some { r with
          object_state := if r.is_preorder then ObjectState.Activated
            else ObjectState.Pending } ∧
        ∃ d2, statsFind g2.stats user = some d2 ∧
          (r.is_preorder = true → r.id ∈ d2.retrieved_rewards) ∧
          (r.is_preorder = false → r.id ∈ d2.pending_rewards) ∧
          (statsFind g.stats user = none →
            d2 = if r.is_preorder then ParticipantStats.new.add_retrieved_reward r.id
              else ParticipantStats.new.add_pending_reward r.id) ∧
          (∀ d, statsFind g.stats user = some d →
            d2 = if r.is_preorder then d.add_retrieved_reward r.id
              else d.add_pending_reward r.id)) := by
  unfold GiveawayManager.roll_reward at h
  rcases hres : m.get_giveaway_by_index index with e | g
  · simp only [hres] at h
    cases h
    exact absurd hok Bool.false_ne_true
  · simp only [hres] at h
    obtain ⟨hb, hg⟩ := get_giveaway_by_index_ok hres
    rcases hact : g.active with _ | _
    · rw [hact] at h
      simp only [Bool.not_false, if_true] at h
      cases h
      exact absurd hok Bool.false_ne_true
    · rw [hact] at h
      simp only [Bool.not_true, Bool.false_eq_true, if_false] at h
      rcases hroll : ManualSelectStrategy.roll user g.update_actions_processed.stats
          g.update_actions_processed.rewards (some reward_number) with e | selected
      · simp only [hroll] at h
        cases h
        exact absurd hok Bool.false_ne_true
      · simp only [hroll] at h
        obtain ⟨k, hk, hkb, hkr, hks⟩ := roll_ok_inv hroll
        cases hk
        refine ⟨g, selected, hb, hg, hact, hkr, hks, ?_⟩
        intro g2 hg2
        have hidx : index - 1 < m.giveaways.length := by omega
        cases h
        rw [GiveawayManager.setGiveaway] at hg2
        rw [List.getElem?_set_self hidx] at hg2
        have hkri : reward_number - 1 < g.rewards.length := by
          have := (List.getElem?_eq_some.mp hkr).1
          simpa [Giveaway.update_actions_processed] using this
        have hkri1 : reward_number - 1 < g.update_actions_processed.rewards.length := hkri
        rcases hd : statsFind g.update_actions_processed.stats user with _ | d
        · have hd0 : statsFind g.stats user = none := hd
          simp only [hd] at hg2
          cases hg2
          simp only [statsFind_statsInsert_self]
          constructor
          · rw [List.getElem?_set_self hkri1]
            rcases hp : selected.is_preorder with _ | _ <;>
              simp [GiveawayManager.get_next_reward_state_after_roll, hp]
          · refine ⟨_, statsFind_statsSet_self
              (statsFind_statsInsert_self g.update_actions_processed.stats user
                ParticipantStats.new), ?_, ?_, ?_, ?_⟩
            · intro hp
              simp only [GiveawayManager.get_next_reward_state_after_roll, hp]
              simp [ParticipantStats.add_retrieved_reward]
            · intro hp
              simp only [GiveawayManager.get_next_reward_state_after_roll, hp]
              simp [ParticipantStats.add_pending_reward]
            · intro _
              rcases hp : selected.is_preorder with _ | _ <;>
                simp only [GiveawayManager.get_next_reward_state_after_roll, hp] <;> rfl
            · intro d hd2
              rw [hd2] at hd0
              cases hd0
        · have hd0 : statsFind g.stats user = some d := hd
          simp only [hd] at hg2
          cases hg2
          constructor
          · rw [List.getElem?_set_self hkri1]
            rcases hp : selected.is_preorder with _ | _ <;>
              simp [GiveawayManager.get_next_reward_state_after_roll, hp]
          · refine ⟨_, statsFind_statsSet_self hd, ?_, ?_, ?_, ?_⟩
            · intro hp
              simp only [GiveawayManager.get_next_reward_state_after_roll, hp]
              simp [ParticipantStats.add_retrieved_reward]
            · intro hp
              simp only [GiveawayManager.get_next_reward_state_after_roll, hp]
              simp [ParticipantStats.add_pending_reward]
            · intro hnone
              rw [hnone] at hd0
              cases hd0
            · intro d0 hd2
              rw [hd2] at hd0
              cases hd0
              rcases hp : selected.is_preorder with _ | _ <;>
                simp only [GiveawayManager.get_next_reward_state_after_roll, hp] <;> rfl

/-- An active giveaway with a plain reward and a pre-order reward,
no stats yet. -/
def exG2 : Giveaway := ⟨true, 1, "test", [plainReward, preorderReward], [], 0, false⟩

/-- A registry holding `exG2`. -/
def exM2 : GiveawayManager := ⟨[exG2]⟩

/-- Witness for C2 at a concrete roll: user 7 rolls the pre-order reward
of `exG2`; the theorem identifies the selected reward as the Unused
pre-order reward at position 2, and the call succeeds. -/
theorem c2_roll_classifies_witness :
    (exM2.roll_reward 7 1 2).1 = Except.ok none ∧
    exG2.rewards[1]? = some preorderReward ∧
    preorderReward.object_state = ObjectState.Unused := by
  obtain ⟨g, r, hb, hg, hact, hr, hs, _⟩ := c2_roll_classifies exM2
    (exM2.roll_reward 7 1 2).2 7 1 2 (exM2.roll_reward 7 1 2).1 rfl (by rfl)
  have hge : g = exG2 := by
    have h2 : some g = some exG2 := by rw [← hg]; rfl
    exact Option.some.inj h2
  subst hge
  have hre : r = preorderReward := by
    have h2 : some r = some preorderReward := by rw [← hr]; rfl
    exact Option.some.inj h2
  subst hre
  exact ⟨rfl, hr, hs⟩

/-! ## C6: what an error leaves behind -/

theorem statsFind_append_left {s : Stats} {v : Nat} {d : ParticipantStats}
    (h : statsFind s v = some d) (t : Stats) : statsFind (s ++ t) v = some d := by
  unfold statsFind at h ⊢
  rw [List.find?_append]
  rcases hf : List.find? (fun p => p.1 = v) s with _ | p
  · rw [hf] at h; cases h
  · rw [hf] at h
    rw [hf, Option.or_some]
    exact h

theorem statsFind_append_singleton_inv {s : Stats} {u v : Nat}
    {dn d' : ParticipantStats} (h : statsFind (s ++ [(u, dn)]) v = some d') :
    statsFind s v = some d' ∨ d' = dn := by
  unfold statsFind at h ⊢
  rw [List.find?_append] at h
  rcases hf : List.find? (fun p => p.1 = v) s with _ | p
  · rw [hf, Option.none_or] at h
    right
    rcases hf2 : List.find? (fun p => p.1 = v) [(u, dn)] with _ | q
    · rw [hf2] at h; cases h
    · rw [hf2] at h
      have := List.find?_some hf2
      have hq : q ∈ [(u, dn)] := List.mem_of_find?_eq_some hf2
      simp at hq
      cases h
      rw [hq]
  · rw [hf, Option.or_some] at h
    left
    rw [hf]
    exact h

theorem statsInsert_of_none {s : Stats} {u : Nat} {d : ParticipantStats}
    (h : statsFind s u = none) : statsInsert s u d = s ++ [(u, d)] := by
  unfold statsInsert
  rw [if_neg]
  unfold statsFind at h
  rw [Option.map_eq_none'] at h
  rw [h]
  simp

/-- What the state after a failed participant operation may look like
relative to the state before it: every giveaway is still listed at its
position with the same rewards, flags and owner; its action counter grew
by at most one; every existing stats entry is untouched and any new entry
is empty. -/
def ErrorFrame (m m' : GiveawayManager) : Prop :=
  ∀ (j : Nat) (g : Giveaway), m.giveaways[j]? = some g →
    ∃ g' : Giveaway, m'.giveaways[j]? = some g' ∧
      g'.rewards = g.rewards ∧ g'.active = g.active ∧ g'.owner = g.owner ∧
      g'.description = g.description ∧ g'.deleted = g.deleted ∧
      (g'.actions_processed = g.actions_processed ∨
        g'.actions_processed = g.actions_processed + 1) ∧
      (∀ v d, statsFind g.stats v = some d → statsFind g'.stats v = some d) ∧
      (∀ v d', statsFind g'.stats v = some d' →
        statsFind g.stats v = some d' ∨ d' = ParticipantStats.new)

theorem errorFrame_refl (m : GiveawayManager) : ErrorFrame m m := by
  intro j g hg
  exact ⟨g, hg, rfl, rfl, rfl, rfl, rfl, Or.inl rfl, fun v d hd => hd, fun v d' hd' => Or.inl hd'⟩

theorem errorFrame_bump {m : GiveawayManager} {index : Nat} {g0 : Giveaway}
    (hg : m.giveaways[index - 1]? = some g0) :
    ErrorFrame m (m.setGiveaway index g0.update_actions_processed) := by
  intro j g hj
  by_cases hji : j = index - 1
  · have hj2 : m.giveaways[index - 1]? = some g := hji ▸ hj
    have hgg : g = g0 := Option.some.inj (hj2.symm.trans hg)
    subst hgg
    have hlt : index - 1 < m.giveaways.length := (List.getElem?_eq_some.mp hj2).1
    refine ⟨g.update_actions_processed, ?_, rfl, rfl, rfl, rfl, rfl, Or.inr rfl,
      fun v d hd => hd, fun v d' hd' => Or.inl hd'⟩
    rw [GiveawayManager.setGiveaway, hji]
    exact List.getElem?_set_self hlt
  · refine ⟨g, ?_, rfl, rfl, rfl, rfl, rfl, Or.inl rfl,
      fun v d hd => hd, fun v d' hd' => Or.inl hd'⟩
    rw [GiveawayManager.setGiveaway]
    rw [List.getElem?_set_ne (fun he => hji he.symm)]
    exact hj

theorem errorFrame_bump_insert {m : GiveawayManager} {index user : Nat} {g0 : Giveaway}
    (hg : m.giveaways[index - 1]? = some g0)
    (hnone : statsFind g0.update_actions_processed.stats user = none) :
    ErrorFrame m (m.setGiveaway index
      { g0.update_actions_processed with
        stats := statsInsert g0.update_actions_processed.stats user
          ParticipantStats.new }) := by
  intro j g hj
  by_cases hji : j = index - 1
  · have hj2 : m.giveaways[index - 1]? = some g := hji ▸ hj
    have hgg : g = g0 := Option.some.inj (hj2.symm.trans hg)
    subst hgg
    have hlt : index - 1 < m.giveaways.length := (List.getElem?_eq_some.mp hj2).1
    refine ⟨{ g.update_actions_processed with
        stats := statsInsert g.update_actions_processed.stats user ParticipantStats.new },
      ?_, rfl, rfl, rfl, rfl, rfl, Or.inr rfl, ?_, ?_⟩
    · rw [GiveawayManager.setGiveaway, hji]
      exact List.getElem?_set_self hlt
    · intro v d hd
      show statsFind (statsInsert g.update_actions_processed.stats user
        ParticipantStats.new) v = some d
      rw [statsInsert_of_none hnone]
      exact statsFind_append_left hd _
    · intro v d' hd'
      have hd2 : statsFind (statsInsert g.update_actions_processed.stats user
          ParticipantStats.new) v = some d' := hd'
      rw [statsInsert_of_none hnone] at hd2
      exact statsFind_append_singleton_inv hd2
  · refine ⟨g, ?_, rfl, rfl, rfl, rfl, rfl, Or.inl rfl,
      fun v d hd => hd, fun v d' hd' => Or.inl hd'⟩
    rw [GiveawayManager.setGiveaway]
    rw [List.getElem?_set_ne (fun he => hji he.symm)]
    exact hj

/-- C6 (amended): whenever `roll_reward`, `confirm_reward` or
`deny_reward` returns an error, no reward's `object_state` changes and no
existing participant ledger changes; however the giveaway's
`actions_processed` counter is incremented when the activation gate was
passed, and `confirm_reward`/`deny_reward` lazily create an empty stats
entry for a caller who had none — the state is not always exactly as
before the call. -/
theorem c6_error_frame_amended (m m' : GiveawayManager) (op : ManagerOp) (e : String)
    (h : applyOp m op = (Except.error e, m')) : ErrorFrame m m' := by
  cases op with
  | roll user index reward_number =>
    rcases hr : m.roll_reward user index reward_number with ⟨r1, m2⟩
    simp only [applyOp, hr] at h
    rw [Prod.mk.injEq] at h
    obtain ⟨h1, h2⟩ := h
    subst h2
    unfold GiveawayManager.roll_reward at hr
    rcases hres : m.get_giveaway_by_index index with e0 | g0
    · simp only [hres] at hr
      rw [Prod.mk.injEq] at hr
      rw [← hr.2]
      exact errorFrame_refl m
    · simp only [hres] at hr
      obtain ⟨hb, hg⟩ := get_giveaway_by_index_ok hres
      rcases hact : g0.active with _ | _
      · rw [hact] at hr
        simp only [Bool.not_false, if_true] at hr
        rw [Prod.mk.injEq] at hr
        rw [← hr.2]
        exact errorFrame_refl m
      · rw [hact] at hr
        simp only [Bool.not_true, Bool.false_eq_true, if_false] at hr
        rcases hroll : ManualSelectStrategy.roll user g0.update_actions_processed.stats
            g0.update_actions_processed.rewards (some reward_number) with e1 | selected
        · simp only [hroll] at hr
          rw [Prod.mk.injEq] at hr
          rw [← hr.2]
          exact errorFrame_bump hg
        · simp only [hroll] at hr
          rw [Prod.mk.injEq] at hr
          rw [← hr.1] at h1
          cases h1
  | confirm user index reward_index =>
    unfold applyOp GiveawayManager.confirm_reward at h
    rcases hres : m.get_giveaway_by_index index with e0 | g0
    · simp only [hres] at h
      rw [Prod.mk.injEq] at h
      rw [← h.2]
      exact errorFrame_refl m
    · simp only [hres] at h
      obtain ⟨hb, hg⟩ := get_giveaway_by_index_ok hres
      rcases hact : g0.active with _ | _
      · rw [hact] at h
        simp only [Bool.not_false, if_true] at h
        rw [Prod.mk.injEq] at h
        rw [← h.2]
        exact errorFrame_refl m
      · rw [hact] at h
        simp only [Bool.not_true, Bool.false_eq_true, if_false] at h
        by_cases hib : reward_index > 0 ∧
            reward_index < g0.update_actions_processed.rewards.length + 1
        · rw [if_pos hib] at h
          rcases hsel : g0.update_actions_processed.rewards[reward_index - 1]?
            with _ | selected
          · simp only [hsel] at h
            rw [Prod.mk.injEq] at h
            rw [← h.2]
            exact errorFrame_bump hg
          · simp only [hsel] at h
            rcases hd : statsFind g0.update_actions_processed.stats user with _ | d
            · simp only [hd] at h
              rw [Prod.mk.injEq] at h
              rw [← h.2]
              exact errorFrame_bump_insert hg hd
            · simp only [hd] at h
              rcases hmv : GiveawayManager.move_reward_to_retrieved d selected
                with e1 | res
              · simp only [hmv] at h
                rw [Prod.mk.injEq] at h
                rw [← h.2]
                exact errorFrame_bump hg
              · simp only [hmv] at h
                rw [Prod.mk.injEq] at h
                cases h.1
        · rw [if_neg hib] at h
          rw [Prod.mk.injEq] at h
          rw [← h.2]
          exact errorFrame_bump hg
  | deny user index reward_index =>
    unfold applyOp GiveawayManager.deny_reward at h
    rcases hres : m.get_giveaway_by_index index with e0 | g0
    · simp only [hres] at h
      rw [Prod.mk.injEq] at h
      rw [← h.2]
      exact errorFrame_refl m
    · simp only [hres] at h
      obtain ⟨hb, hg⟩ := get_giveaway_by_index_ok hres
      rcases hact : g0.active with _ | _
      · rw [hact] at h
        simp only [Bool.not_false, if_true] at h
        rw [Prod.mk.injEq] at h
        rw [← h.2]
        exact errorFrame_refl m
      · rw [hact] at h
        simp only [Bool.not_true, Bool.false_eq_true, if_false] at h
        by_cases hib : reward_index > 0 ∧
            reward_index < g0.update_actions_processed.rewards.length + 1
        · rw [if_pos hib] at h
          rcases hsel : g0.update_actions_processed.rewards[reward_index - 1]?
            with _ | selected
          · simp only [hsel] at h
            rw [Prod.mk.injEq] at h
            rw [← h.2]
            exact errorFrame_bump hg
          · simp only [hsel] at h
            rcases hd : statsFind g0.update_actions_processed.stats user with _ | d
            · simp only [hd] at h
              rw [Prod.mk.injEq] at h
              rw [← h.2]
              exact errorFrame_bump_insert hg hd
            · simp only [hd] at h
              rcases hmv : GiveawayManager.rollback_reward_to_unused d selected
                with e1 | res
              · simp only [hmv] at h
                rw [Prod.mk.injEq] at h
                rw [← h.2]
                exact errorFrame_bump hg
              · simp only [hmv] at h
                rw [Prod.mk.injEq] at h
                cases h.1
        · rw [if_neg hib] at h
          rw [Prod.mk.injEq] at h
          rw [← h.2]
          exact errorFrame_bump hg

/-- An active giveaway with one plain Unused reward, no stats. -/
def exG6 : Giveaway := ⟨true, 1, "test", [plainReward], [], 0, false⟩

/-- A registry holding `exG6`. -/
def exM6 : GiveawayManager := ⟨[exG6]⟩

/-- Counterexample for C6 as stated: `confirm_reward` by a caller with no
stats entry returns an error, yet the state is not exactly as before the
call — the action counter was incremented and an empty stats entry was
created for the caller. -/
theorem c6_counterexample :
    (exM6.confirm_reward 2 1 1).1 =
      Except.error "The reward must be rolled before confirming." ∧
    exM6.giveaways = [exG6] ∧
    exG6.actions_processed = 0 ∧
    statsFind exG6.stats 2 = none ∧
    (exM6.confirm_reward 2 1 1).2.giveaways =
      [{ exG6 with actions_processed := 1, stats := [(2, ParticipantStats.new)] }] := by
  exact ⟨rfl, rfl, rfl, rfl, rfl⟩

/-- Witness for C6 (amended) at the concrete failing confirm: the frame
holds — the rewards are untouched and the only stats entry after the call
is the empty one. -/
theorem c6_error_frame_witness :
    exM6.giveaways[0]? = some exG6 ∧
    ((exM6.confirm_reward 2 1 1).2.giveaways[0]?.map Giveaway.rewards) =
      some exG6.rewards := by
  obtain ⟨g', hg', hrew, _⟩ := c6_error_frame_amended exM6 (exM6.confirm_reward 2 1 1).2
    (ManagerOp.confirm 2 1 1) "The reward must be rolled before confirming." rfl
    0 exG6 rfl
  exact ⟨rfl, by rw [hg']; simp [hrew]⟩

/-! ## C1: the reward lifecycle state machine -/

theorem move_reward_to_retrieved_ok_inv {d : ParticipantStats} {r : Reward}
    {res : ParticipantStats × ObjectState}
    (h : GiveawayManager.move_reward_to_retrieved d r = Except.ok res) :
    r.object_state = ObjectState.Pending ∧ r.id ∈ d.pending_rewards ∧
      res = ((d.remove_pending_reward r.id).add_retrieved_reward r.id,
        ObjectState.Activated) := by
  unfold GiveawayManager.move_reward_to_retrieved at h
  rcases hs : r.object_state with _ | _ | _ <;> rw [hs] at h
  · cases h
  · by_cases hm : r.id ∈ d.pending_rewards
    · rw [if_pos hm] at h
      cases h
      exact ⟨rfl, hm, rfl⟩
    · rw [if_neg hm] at h
      cases h
  · cases h

theorem rollback_reward_to_unused_ok_inv {d : ParticipantStats} {r : Reward}
    {res : ParticipantStats × ObjectState}
    (h : GiveawayManager.rollback_reward_to_unused d r = Except.ok res) :
    r.object_state = ObjectState.Pending ∧ r.id ∈ d.pending_rewards ∧
      res = (d.remove_pending_reward r.id, ObjectState.Unused) := by
  unfold GiveawayManager.rollback_reward_to_unused at h
  rcases hs : r.object_state with _ | _ | _ <;> rw [hs] at h
  · cases h
  · by_cases hm : r.id ∈ d.pending_rewards
    · rw [if_pos hm] at h
      cases h
      exact ⟨rfl, hm, rfl⟩
    · rw [if_neg hm] at h
      cases h
  · cases h

theorem getElem?_set_cases {l : List Reward} {i ri : Nat} {a r r' : Reward}
    (hr : l[ri]? = some r) (hr' : (l.set i a)[ri]? = some r') :
    (ri = i ∧ r' = a) ∨ r' = r := by
  by_cases hi : ri = i
  · subst hi
    have hlt : ri < l.length := (List.getElem?_eq_some.mp hr).1
    rw [List.getElem?_set_self hlt] at hr'
    exact Or.inl ⟨rfl, (Option.some.inj hr').symm⟩
  · rw [List.getElem?_set_ne (fun he => hi he.symm)] at hr'
    exact Or.inr (Option.some.inj (hr'.symm.trans hr))

/-- The transition any single participant operation may apply to the
reward held at a fixed position of a fixed giveaway. -/
theorem reward_transition (m m' : GiveawayManager) (op : ManagerOp)
    (res : Except String Unit) (happ : applyOp m op = (res, m'))
    (j ri : Nat) (g g' : Giveaway) (r r' : Reward)
    (hg : m.giveaways[j]? = some g) (hg' : m'.giveaways[j]? = some g')
    (hr : g.rewards[ri]? = some r) (hr' : g'.rewards[ri]? = some r') :
    r'.object_state = r.object_state ∨
    (∃ u i n, op = ManagerOp.roll u i n ∧ r.object_state = ObjectState.Unused ∧
      ((r.is_preorder = false ∧ r'.object_state = ObjectState.Pending) ∨
       (r.is_preorder = true ∧ r'.object_state = ObjectState.Activated))) ∨
    (∃ u i n, op = ManagerOp.confirm u i n ∧ r.object_state = ObjectState.Pending ∧
      r'.object_state = ObjectState.Activated) ∨
    (∃ u i n, op = ManagerOp.deny u i n ∧ r.object_state = ObjectState.Pending ∧
      r'.object_state = ObjectState.Unused) := by
  have same_list : g'.rewards = g.rewards → r'.object_state = r.object_state := by
    intro he
    rw [he] at hr'
    rw [Option.some.inj (hr'.symm.trans hr)]
  have frame_other : ∀ (index : Nat) (gx : Giveaway),
      m' = m.setGiveaway index gx → j ≠ index - 1 →
      r'.object_state = r.object_state := by
    intro index gx hm hji
    rw [hm] at hg'
    rw [GiveawayManager.setGiveaway] at hg'
    rw [List.getElem?_set_ne (fun he => hji he.symm)] at hg'
    have := Option.some.inj (hg'.symm.trans hg)
    rw [this] at hr'
    rw [Option.some.inj (hr'.symm.trans hr)]
  have frame_at : ∀ (index : Nat) (gx : Giveaway),
      m' = m.setGiveaway index gx → j = index - 1 → gx.rewards = g.rewards →
      r'.object_state = r.object_state := by
    intro index gx hm hji hrew
    rw [hm] at hg'
    rw [GiveawayManager.setGiveaway] at hg'
    have hlt : j < m.giveaways.length := (List.getElem?_eq_some.mp hg).1
    rw [hji] at hg' hlt
    rw [List.getElem?_set_self hlt] at hg'
    have := Option.some.inj hg'
    rw [← this] at hr'
    rw [hrew] at hr'
    rw [Option.some.inj (hr'.symm.trans hr)]
  have frame_any : ∀ (index : Nat) (g0x gx : Giveaway),
      m.giveaways[index - 1]? = some g0x →
      m' = m.setGiveaway index gx → gx.rewards = g0x.rewards →
      r'.object_state = r.object_state := by
    intro index g0x gx hg0x hm hrew
    by_cases hji : j = index - 1
    · have hj2 : m.giveaways[index - 1]? = some g := hji ▸ hg
      have hgg : g = g0x := Option.some.inj (hj2.symm.trans hg0x)
      exact frame_at index gx hm hji (by rw [hrew, ← hgg])
    · exact frame_other index gx hm hji
  cases op with
  | roll user index reward_number =>
    rcases hrr : m.roll_reward user index reward_number with ⟨r1, m2⟩
    simp only [applyOp, hrr] at happ
    rw [Prod.mk.injEq] at happ
    obtain ⟨h1, h2⟩ := happ
    subst h2
    unfold GiveawayManager.roll_reward at hrr
    rcases hres : m.get_giveaway_by_index index with e0 | g0
    · simp only [hres] at hrr
      rw [Prod.mk.injEq] at hrr
      exact Or.inl (same_list (by rw [← hrr.2] at hg'; rw [Option.some.inj (hg'.symm.trans hg)]))
    · simp only [hres] at hrr
      obtain ⟨hb, hg0⟩ := get_giveaway_by_index_ok hres
      rcases hact : g0.active with _ | _
      · rw [hact] at hrr
        simp only [Bool.not_false, if_true] at hrr
        rw [Prod.mk.injEq] at hrr
        exact Or.inl (same_list
          (by rw [← hrr.2] at hg'; rw [Option.some.inj (hg'.symm.trans hg)]))
      · rw [hact] at hrr
        simp only [Bool.not_true, Bool.false_eq_true, if_false] at hrr
        rcases hroll : ManualSelectStrategy.roll user g0.update_actions_processed.stats
            g0.update_actions_processed.rewards (some reward_number) with e1 | selected
        · simp only [hroll] at hrr
          rw [Prod.mk.injEq] at hrr
          exact Or.inl (frame_any index g0 g0.update_actions_processed hg0 hrr.2.symm rfl)
        · simp only [hroll] at hrr
          rw [Prod.mk.injEq] at hrr
          obtain ⟨k, hk, hkb, hkr, hks⟩ := roll_ok_inv hroll
          cases hk
          by_cases hji : j = index - 1
          · have hj2 : m.giveaways[index - 1]? = some g := hji ▸ hg
            have hgg : g = g0 := Option.some.inj (hj2.symm.trans hg0)
            subst hgg
            rw [← hrr.2] at hg'
            rw [GiveawayManager.setGiveaway] at hg'
            have hlt : index - 1 < m.giveaways.length := (List.getElem?_eq_some.mp hj2).1
            rw [hji] at hg'
            rw [List.getElem?_set_self hlt] at hg'
            have hge := Option.some.inj hg'
            have hrew' : g'.rewards = g.update_actions_processed.rewards.set
                (reward_number - 1) { selected with object_state :=
                  (GiveawayManager.get_next_reward_state_after_roll selected
                    (match statsFind (match statsFind g.update_actions_processed.stats user with
                      | some _ => g.update_actions_processed.stats
                      | none => statsInsert g.update_actions_processed.stats user
                          ParticipantStats.new) user with
                      | some d => d
                      | none => ParticipantStats.new)).1 } := by
              rw [← hge]
            rw [hrew'] at hr'
            rcases getElem?_set_cases (show g.update_actions_processed.rewards[ri]? =
                some r from hr) hr' with ⟨hrieq, hra⟩ | hsame
            · have hrsel : r = selected := by
                rw [hrieq] at hr
                exact Option.some.inj ((show g.update_actions_processed.rewards[reward_number - 1]?
                  = some r from hr).symm.trans hkr)
              subst hrsel
              refine Or.inr (Or.inl ⟨user, index, reward_number, rfl, hks, ?_⟩)
              rcases hp : r.is_preorder with _ | _
              · left
                refine ⟨rfl, ?_⟩
                rw [hra]
                simp only [GiveawayManager.get_next_reward_state_after_roll, hp]
              · right
                refine ⟨rfl, ?_⟩
                rw [hra]
                simp only [GiveawayManager.get_next_reward_state_after_roll, hp]
            · rw [hsame]
              exact Or.inl rfl
          · exact Or.inl (frame_other index _ hrr.2.symm hji)
  | confirm user index reward_index =>
    unfold applyOp GiveawayManager.confirm_reward at happ
    rcases hres : m.get_giveaway_by_index index with e0 | g0
    · simp only [hres] at happ
      rw [Prod.mk.injEq] at happ
      exact Or.inl (same_list
        (by rw [← happ.2] at hg'; rw [Option.some.inj (hg'.symm.trans hg)]))
    · simp only [hres] at happ
      obtain ⟨hb, hg0⟩ := get_giveaway_by_index_ok hres
      rcases hact : g0.active with _ | _
      · rw [hact] at happ
        simp only [Bool.not_false, if_true] at happ
        rw [Prod.mk.injEq] at happ
        exact Or.inl (same_list
          (by rw [← happ.2] at hg'; rw [Option.some.inj (hg'.symm.trans hg)]))
      · rw [hact] at happ
        simp only [Bool.not_true, Bool.false_eq_true, if_false] at happ
        by_cases hib : reward_index > 0 ∧
            reward_index < g0.update_actions_processed.rewards.length + 1
        · rw [if_pos hib] at happ
          rcases hsel : g0.update_actions_processed.rewards[reward_index - 1]?
            with _ | selected
          · simp only [hsel] at happ
            rw [Prod.mk.injEq] at happ
            exact Or.inl (frame_any index g0 _ hg0 happ.2.symm rfl)
          · simp only [hsel] at happ
            rcases hd : statsFind g0.update_actions_processed.stats user with _ | d
            · simp only [hd] at happ
              rw [Prod.mk.injEq] at happ
              exact Or.inl (frame_any index g0 _ hg0 happ.2.symm rfl)
            · simp only [hd] at happ
              rcases hmv : GiveawayManager.move_reward_to_retrieved d selected
                with e1 | mres
              · simp only [hmv] at happ
                rw [Prod.mk.injEq] at happ
                exact Or.inl (frame_any index g0 _ hg0 happ.2.symm rfl)
              · simp only [hmv] at happ
                rw [Prod.mk.injEq] at happ
                obtain ⟨hsp, hsmem, hreseq⟩ := move_reward_to_retrieved_ok_inv hmv
                by_cases hji : j = index - 1
                · have hj2 : m.giveaways[index - 1]? = some g := hji ▸ hg
                  have hgg : g = g0 := Option.some.inj (hj2.symm.trans hg0)
                  subst hgg
                  rw [← happ.2] at hg'
                  rw [GiveawayManager.setGiveaway] at hg'
                  have hlt : index - 1 < m.giveaways.length :=
                    (List.getElem?_eq_some.mp hj2).1
                  rw [hji] at hg'
                  rw [List.getElem?_set_self hlt] at hg'
                  have hge := Option.some.inj hg'
                  have hrew' : g'.rewards = g.update_actions_processed.rewards.set
                      (reward_index - 1) { selected with object_state := mres.2 } := by
                    rw [← hge]
                  rw [hrew'] at hr'
                  rcases getElem?_set_cases
                      (show g.update_actions_processed.rewards[ri]? = some r from hr) hr'
                      with ⟨hrieq, hra⟩ | hsame
                  · have hrsel : r = selected := by
                      rw [hrieq] at hr
                      exact Option.some.inj
                        ((show g.update_actions_processed.rewards[reward_index - 1]? =
                          some r from hr).symm.trans hsel)
                    subst hrsel
                    refine Or.inr (Or.inr (Or.inl ⟨user, index, reward_index, rfl, hsp, ?_⟩))
                    rw [hra, hreseq]
                  · rw [hsame]
                    exact Or.inl rfl
                · exact Or.inl (frame_other index _ happ.2.symm hji)
        · rw [if_neg hib] at happ
          rw [Prod.mk.injEq] at happ
          exact Or.inl (frame_any index g0 _ hg0 happ.2.symm rfl)
  | deny user index reward_index =>
    unfold applyOp GiveawayManager.deny_reward at happ
    rcases hres : m.get_giveaway_by_index index with e0 | g0
    · simp only [hres] at happ
      rw [Prod.mk.injEq] at happ
      exact Or.inl (same_list
        (by rw [← happ.2] at hg'; rw [Option.some.inj (hg'.symm.trans hg)]))
    · simp only [hres] at happ
      obtain ⟨hb, hg0⟩ := get_giveaway_by_index_ok hres
      rcases hact : g0.active with _ | _
      · rw [hact] at happ
        simp only [Bool.not_false, if_true] at happ
        rw [Prod.mk.injEq] at happ
        exact Or.inl (same_list
          (by rw [← happ.2] at hg'; rw [Option.some.inj (hg'.symm.trans hg)]))
      · rw [hact] at happ
        simp only [Bool.not_true, Bool.false_eq_true, if_false] at happ
        by_cases hib : reward_index > 0 ∧
            reward_index < g0.update_actions_processed.rewards.length + 1
        · rw [if_pos hib] at happ
          rcases hsel : g0.update_actions_processed.rewards[reward_index - 1]?
            with _ | selected
          · simp only [hsel] at happ
            rw [Prod.mk.injEq] at happ
            exact Or.inl (frame_any index g0 _ hg0 happ.2.symm rfl)
          · simp only [hsel] at happ
            rcases hd : statsFind g0.update_actions_processed.stats user with _ | d
            · simp only [hd] at happ
              rw [Prod.mk.injEq] at happ
              exact Or.inl (frame_any index g0 _ hg0 happ.2.symm rfl)
            · simp only [hd] at happ
              rcases hmv : GiveawayManager.rollback_reward_to_unused d selected
                with e1 | mres
              · simp only [hmv] at happ
                rw [Prod.mk.injEq] at happ
                exact Or.inl (frame_any index g0 _ hg0 happ.2.symm rfl)
              · simp only [hmv] at happ
                rw [Prod.mk.injEq] at happ
                obtain ⟨hsp, hsmem, hreseq⟩ := rollback_reward_to_unused_ok_inv hmv
                by_cases hji : j = index - 1
                · have hj2 : m.giveaways[index - 1]? = some g := hji ▸ hg
                  have hgg : g = g0 := Option.some.inj (hj2.symm.trans hg0)
                  subst hgg
                  rw [← happ.2] at hg'
                  rw [GiveawayManager.setGiveaway] at hg'
                  have hlt : index - 1 < m.giveaways.length :=
                    (List.getElem?_eq_some.mp hj2).1
                  rw [hji] at hg'
                  rw [List.getElem?_set_self hlt] at hg'
                  have hge := Option.some.inj hg'
                  have hrew' : g'.rewards = g.update_actions_processed.rewards.set
                      (reward_index - 1) { selected with object_state := mres.2 } := by
                    rw [← hge]
                  rw [hrew'] at hr'
                  rcases getElem?_set_cases
                      (show g.update_actions_processed.rewards[ri]? = some r from hr) hr'
                      with ⟨hrieq, hra⟩ | hsame
                  · have hrsel : r = selected := by
                      rw [hrieq] at hr
                      exact Option.some.inj
                        ((show g.update_actions_processed.rewards[reward_index - 1]? =
                          some r from hr).symm.trans hsel)
                    subst hrsel
                    refine Or.inr (Or.inr (Or.inr ⟨user, index, reward_index, rfl, hsp, ?_⟩))
                    rw [hra, hreseq]
                  · rw [hsame]
                    exact Or.inl rfl
                · exact Or.inl (frame_other index _ happ.2.symm hji)
        · rw [if_neg hib] at happ
          rw [Prod.mk.injEq] at happ
          exact Or.inl (frame_any index g0 _ hg0 happ.2.symm rfl)

theorem confirm_ok_inv {m m' : GiveawayManager} {user index reward_index : Nat}
    (h : m.confirm_reward user index reward_index = (Except.ok (), m')) :
    ∃ g r d, m.giveaways[index - 1]? = some g ∧ g.active = true ∧
      g.rewards[reward_index - 1]? = some r ∧
      statsFind g.stats user = some d ∧
      r.object_state = ObjectState.Pending ∧ r.id ∈ d.pending_rewards ∧
      m' = m.setGiveaway index
        { g.update_actions_processed with
          stats := statsSet g.update_actions_processed.stats user
            ((d.remove_pending_reward r.id).add_retrieved_reward r.id),
          rewards := g.update_actions_processed.rewards.set (reward_index - 1)
            { r with object_state := ObjectState.Activated } } := by
  unfold GiveawayManager.confirm_reward at h
  rcases hres : m.get_giveaway_by_index index with e0 | g0
  · simp only [hres] at h
    rw [Prod.mk.injEq] at h
    cases h.1
  · simp only [hres] at h
    obtain ⟨hb, hg0⟩ := get_giveaway_by_index_ok hres
    rcases hact : g0.active with _ | _
    · rw [hact] at h
      simp only [Bool.not_false, if_true] at h
      rw [Prod.mk.injEq] at h
      cases h.1
    · rw [hact] at h
      simp only [Bool.not_true, Bool.false_eq_true, if_false] at h
      by_cases hib : reward_index > 0 ∧
          reward_index < g0.update_actions_processed.rewards.length + 1
      · rw [if_pos hib] at h
        rcases hsel : g0.update_actions_processed.rewards[reward_index - 1]?
          with _ | selected
        · simp only [hsel] at h
          rw [Prod.mk.injEq] at h
          cases h.1
        · simp only [hsel] at h
          rcases hd : statsFind g0.update_actions_processed.stats user with _ | d
          · simp only [hd] at h
            rw [Prod.mk.injEq] at h
            cases h.1
          · simp only [hd] at h
            rcases hmv : GiveawayManager.move_reward_to_retrieved d selected
              with e1 | mres
            · simp only [hmv] at h
              rw [Prod.mk.injEq] at h
              cases h.1
            · simp only [hmv] at h
              rw [Prod.mk.injEq] at h
              obtain ⟨hsp, hsmem, hreseq⟩ := move_reward_to_retrieved_ok_inv hmv
              refine ⟨g0, selected, d, hg0, hact, hsel, hd, hsp, hsmem, ?_⟩
              rw [← h.2, hreseq]
      · rw [if_neg hib] at h
        rw [Prod.mk.injEq] at h
        cases h.1

theorem deny_ok_inv {m m' : GiveawayManager} {user index reward_index : Nat}
    (h : m.deny_reward user index reward_index = (Except.ok (), m')) :
    ∃ g r d, m.giveaways[index - 1]? = some g ∧ g.active = true ∧
      g.rewards[reward_index - 1]? = some r ∧
      statsFind g.stats user = some d ∧
      r.object_state = ObjectState.Pending ∧ r.id ∈ d.pending_rewards ∧
      m' = m.setGiveaway index
        { g.update_actions_processed with
          stats := statsSet g.update_actions_processed.stats user
            (d.remove_pending_reward r.id),
          rewards := g.update_actions_processed.rewards.set (reward_index - 1)
            { r with object_state := ObjectState.Unused } } := by
  unfold GiveawayManager.deny_reward at h
  rcases hres : m.get_giveaway_by_index index with e0 | g0
  · simp only [hres] at h
    rw [Prod.mk.injEq] at h
    cases h.1
  · simp only [hres] at h
    obtain ⟨hb, hg0⟩ := get_giveaway_by_index_ok hres
    rcases hact : g0.active with _ | _
    · rw [hact] at h
      simp only [Bool.not_false, if_true] at h
      rw [Prod.mk.injEq] at h
      cases h.1
    · rw [hact] at h
      simp only [Bool.not_true, Bool.false_eq_true, if_false] at h
      by_cases hib : reward_index > 0 ∧
          reward_index < g0.update_actions_processed.rewards.length + 1
      · rw [if_pos hib] at h
        rcases hsel : g0.update_actions_processed.rewards[reward_index - 1]?
          with _ | selected
        · simp only [hsel] at h
          rw [Prod.mk.injEq] at h
          cases h.1
        · simp only [hsel] at h
          rcases hd : statsFind g0.update_actions_processed.stats user with _ | d
          · simp only [hd] at h
            rw [Prod.mk.injEq] at h
            cases h.1
          · simp only [hd] at h
            rcases hmv : GiveawayManager.rollback_reward_to_unused d selected
              with e1 | mres
            · simp only [hmv] at h
              rw [Prod.mk.injEq] at h
              cases h.1
            · simp only [hmv] at h
              rw [Prod.mk.injEq] at h
              obtain ⟨hsp, hsmem, hreseq⟩ := rollback_reward_to_unused_ok_inv hmv
              refine ⟨g0, selected, d, hg0, hact, hsel, hd, hsp, hsmem, ?_⟩
              rw [← h.2, hreseq]
      · rw [if_neg hib] at h
        rw [Prod.mk.injEq] at h
        cases h.1

/-- C1: under any sequence step of the participant operations, a reward's
state only moves along the graph Unused→Pending (non-preorder roll),
Unused→Activated (preorder roll), Pending→Activated (confirm),
Pending→Unused (deny) — or stays put; and on an Activated reward both
`confirm_reward` and `deny_reward` fail while the state stays
Activated. -/
theorem c1_reward_state_graph :
    (∀ (m m' : GiveawayManager) (op : ManagerOp) (res : Except String Unit),
      applyOp m op = (res, m') →
      ∀ (j ri : Nat) (g g' : Giveaway) (r r' : Reward),
        m.giveaways[j]? = some g → m'.giveaways[j]? = some g' →
        g.rewards[ri]? = some r → g'.rewards[ri]? = some r' →
        (r'.object_state = r.object_state ∨
        (∃ u i n, op = ManagerOp.roll u i n ∧ r.object_state = ObjectState.Unused ∧
          ((r.is_preorder = false ∧ r'.object_state = ObjectState.Pending) ∨
           (r.is_preorder = true ∧ r'.object_state = ObjectState.Activated))) ∨
        (∃ u i n, op = ManagerOp.confirm u i n ∧
          r.object_state = ObjectState.Pending ∧
          r'.object_state = ObjectState.Activated) ∨
        (∃ u i n, op = ManagerOp.deny u i n ∧
          r.object_state = ObjectState.Pending ∧
          r'.object_state = ObjectState.Unused))) ∧
    (∀ (m : GiveawayManager) (user index reward_index : Nat) (g : Giveaway) (r : Reward),
      m.giveaways[index - 1]? = some g →
      g.rewards[reward_index - 1]? = some r →
      r.object_state = ObjectState.Activated →
      ((m.confirm_reward user index reward_index).1.isOk = false ∧
       (m.deny_reward user index reward_index).1.isOk = false ∧
       (∀ g2 r2,
         (m.confirm_reward user index reward_index).2.giveaways[index - 1]? = some g2 →
         g2.rewards[reward_index - 1]? = some r2 →
         r2.object_state = ObjectState.Activated) ∧
       (∀ g2 r2,
         (m.deny_reward user index reward_index).2.giveaways[index - 1]? = some g2 →
         g2.rewards[reward_index - 1]? = some r2 →
         r2.object_state = ObjectState.Activated))) := by
  constructor
  · intro m m' op res happ j ri g g' r r' hg hg' hr hr'
    exact reward_transition m m' op res happ j ri g g' r r' hg hg' hr hr'
  · intro m user index reward_index g r hg hr hs
    have hconf : (m.confirm_reward user index reward_index).1.isOk = false := by
      rcases hc : (m.confirm_reward user index reward_index).1 with e | u
      · rfl
      · cases u
        have hc2 : m.confirm_reward user index reward_index =
            (Except.ok (), (m.confirm_reward user index reward_index).2) := by
          rw [← hc]
        obtain ⟨g0, r0, d, hg0, _, hr0, _, hsp, _, _⟩ := confirm_ok_inv hc2
        have hgg : g = g0 := Option.some.inj (hg.symm.trans hg0)
        subst hgg
        have hrr : r = r0 := Option.some.inj (hr.symm.trans hr0)
        subst hrr
        rw [hs] at hsp
        cases hsp
    have hden : (m.deny_reward user index reward_index).1.isOk = false := by
      rcases hc : (m.deny_reward user index reward_index).1 with e | u
      · rfl
      · cases u
        have hc2 : m.deny_reward user index reward_index =
            (Except.ok (), (m.deny_reward user index reward_index).2) := by
          rw [← hc]
        obtain ⟨g0, r0, d, hg0, _, hr0, _, hsp, _, _⟩ := deny_ok_inv hc2
        have hgg : g = g0 := Option.some.inj (hg.symm.trans hg0)
        subst hgg
        have hrr : r = r0 := Option.some.inj (hr.symm.trans hr0)
        subst hrr
        rw [hs] at hsp
        cases hsp
    refine ⟨hconf, hden, ?_, ?_⟩
    · intro g2 r2 hg2 hr2
      have htr := reward_transition m (m.confirm_reward user index reward_index).2
        (ManagerOp.confirm user index reward_index)
        (m.confirm_reward user index reward_index).1 rfl
        (index - 1) (reward_index - 1) g g2 r r2 hg hg2 hr hr2
      rcases htr with he | ⟨u, i, n, hop, _, _⟩ | ⟨u, i, n, hop, hp, _⟩ |
          ⟨u, i, n, hop, hp, _⟩
      · rw [he, hs]
      · cases hop
      · rw [hs] at hp; cases hp
      · rw [hs] at hp; cases hp
    · intro g2 r2 hg2 hr2
      have htr := reward_transition m (m.deny_reward user index reward_index).2
        (ManagerOp.deny user index reward_index)
        (m.deny_reward user index reward_index).1 rfl
        (index - 1) (reward_index - 1) g g2 r r2 hg hg2 hr hr2
      rcases htr with he | ⟨u, i, n, hop, _, _⟩ | ⟨u, i, n, hop, hp, _⟩ |
          ⟨u, i, n, hop, hp, _⟩
      · rw [he, hs]
      · cases hop
      · rw [hs] at hp; cases hp
      · rw [hs] at hp; cases hp

/-- A giveaway whose only reward is already Activated, retrieved by
user 7. -/
def exActivatedGiveaway : Giveaway :=
  ⟨true, 1, "test", [{ keyReward with object_state := ObjectState.Activated }],
    [(7, ⟨∅, {1}⟩)], 0, false⟩

/-- A registry holding `exActivatedGiveaway`. -/
def exM1 : GiveawayManager := ⟨[exActivatedGiveaway]⟩

/-- Witness for C1 at a concrete registry: both confirm and deny on the
Activated reward fail, and a non-preorder roll on a fresh giveaway moves
its reward Unused→Pending, matching the graph. -/
theorem c1_reward_state_graph_witness :
    (exM1.confirm_reward 7 1 1).1.isOk = false ∧
    (exM1.deny_reward 7 1 1).1.isOk = false := by
  have h := c1_reward_state_graph.2 exM1 7 1 1 exActivatedGiveaway
    { keyReward with object_state := ObjectState.Activated } rfl rfl rfl
  exact ⟨h.1, h.2.1⟩

/-! ## C5: the ledger/state agreement invariant -/

/-- The well-formedness invariant of a giveaway's rewards list and stats
map: reward ids are distinct, stats keys are distinct, every pending id
belongs to a Pending reward, every retrieved id to an Activated reward,
and each id is held by at most one participant. -/
def InvAtParts (rewards : List Reward) (stats : Stats) : Prop :=
  (rewards.map Reward.id).Nodup ∧
  List.Pairwise (fun p q => p.1 ≠ q.1) stats ∧
  (∀ p ∈ stats, ∀ id ∈ p.2.pending_rewards,
    ∃ r ∈ rewards, r.id = id ∧ r.object_state = ObjectState.Pending) ∧
  (∀ p ∈ stats, ∀ id ∈ p.2.retrieved_rewards,
    ∃ r ∈ rewards, r.id = id ∧ r.object_state = ObjectState.Activated) ∧
  (∀ p ∈ stats, ∀ q ∈ stats,
    ∀ id ∈ p.2.pending_rewards ∪ p.2.retrieved_rewards,
      id ∈ q.2.pending_rewards ∪ q.2.retrieved_rewards → p.1 = q.1)

/-- The invariant read off a giveaway. -/
def InvAt (g : Giveaway) : Prop := InvAtParts g.rewards g.stats

instance (rewards : List Reward) (stats : Stats) :
    Decidable (InvAtParts rewards stats) := by
  unfold InvAtParts; infer_instance

instance (g : Giveaway) : Decidable (InvAt g) := by
  unfold InvAt; infer_instance

theorem nodup_id_unique {l : List Reward} (hnd : (l.map Reward.id).Nodup)
    {r1 r2 : Reward} (h1 : r1 ∈ l) (h2 : r2 ∈ l) (he : r1.id = r2.id) : r1 = r2 := by
  obtain ⟨i, hi⟩ := List.getElem?_of_mem h1
  obtain ⟨j, hj⟩ := List.getElem?_of_mem h2
  by_cases hij : i = j
  · rw [hij] at hi
    exact Option.some.inj (hi.symm.trans hj)
  · exact absurd he.symm (nodup_id_getElem_ne hnd hij hi hj)

/-- Setting a position to a reward with the same id leaves the id map
unchanged. -/
theorem map_id_set_same {l : List Reward} {k : Nat} {sel a : Reward}
    (hsel : l[k]? = some sel) (hid : a.id = sel.id) :
    (l.set k a).map Reward.id = l.map Reward.id := by
  rw [List.map_set]
  apply List.ext_getElem?
  intro n
  by_cases hn : n = k
  · subst hn
    have hlt : n < l.length := (List.getElem?_eq_some.mp hsel).1
    rw [List.getElem?_set_self (by simpa using hlt)]
    rw [List.getElem?_map, hsel]
    rw [hid]
    rfl
  · rw [List.getElem?_set_ne (fun he => hn he.symm)]

theorem mem_statsSet {s : Stats} {u : Nat} {d : ParticipantStats}
    {p' : Nat × ParticipantStats} (h : p' ∈ statsSet s u d) :
    ∃ p ∈ s, (p.1 = u ∧ p' = (p.1, d)) ∨ (p.1 ≠ u ∧ p' = p) := by
  unfold statsSet at h
  obtain ⟨p, hp, he⟩ := List.mem_map.mp h
  by_cases hc : p.1 = u
  · exact ⟨p, hp, Or.inl ⟨hc, by rw [← he, if_pos hc]⟩⟩
  · exact ⟨p, hp, Or.inr ⟨hc, by rw [← he, if_neg hc]⟩⟩

theorem statsSet_keys_nodup {s : Stats} {u : Nat} {d : ParticipantStats}
    (h : List.Pairwise (fun p q => p.1 ≠ q.1) s) :
    List.Pairwise (fun p q => p.1 ≠ q.1) (statsSet s u d) := by
  unfold statsSet
  rw [List.pairwise_map]
  refine h.imp_of_mem ?_
  intro a b _ _ hab
  by_cases ha : a.1 = u <;> by_cases hb : b.1 = u <;>
    simp [ha, hb] <;> simpa [ha, hb] using hab

theorem statsFind_mem {s : Stats} {u : Nat} {d : ParticipantStats}
    (h : statsFind s u = some d) : ∃ p ∈ s, p.1 = u ∧ p.2 = d := by
  unfold statsFind at h
  rcases hf : List.find? (fun p => p.1 = u) s with _ | p
  · rw [hf] at h; cases h
  · rw [hf] at h
    refine ⟨p, List.mem_of_find?_eq_some hf, ?_, Option.some.inj h⟩
    have := List.find?_some hf
    simpa using this

/-- With distinct keys, any entry whose key was found is the found
entry. -/
theorem statsFind_entry_unique {s : Stats} {u : Nat} {d : ParticipantStats}
    (hkeys : List.Pairwise (fun p q => p.1 ≠ q.1) s)
    (hfind : statsFind s u = some d) {p : Nat × ParticipantStats}
    (hp : p ∈ s) (hpu : p.1 = u) : p.2 = d := by
  obtain ⟨q, hq, hqu, hqd⟩ := statsFind_mem hfind
  by_cases hpq : p = q
  · rw [hpq]; exact hqd
  · obtain ⟨i, hi⟩ := List.getElem?_of_mem hp
    obtain ⟨j, hj⟩ := List.getElem?_of_mem hq
    have hne : i ≠ j := by
      intro he
      rw [he, hj] at hi
      exact hpq (Option.some.inj hi).symm
    rcases Nat.lt_or_ge i j with hij | hij
    · have := List.pairwise_iff_getElem.mp hkeys i j
        (List.getElem?_eq_some.mp hi).1 (List.getElem?_eq_some.mp hj).1 hij
      rw [(List.getElem?_eq_some.mp hi).2, (List.getElem?_eq_some.mp hj).2] at this
      exact absurd (hpu.trans hqu.symm) this
    · have hij2 : j < i := by omega
      have := List.pairwise_iff_getElem.mp hkeys j i
        (List.getElem?_eq_some.mp hj).1 (List.getElem?_eq_some.mp hi).1 hij2
      rw [(List.getElem?_eq_some.mp hj).2, (List.getElem?_eq_some.mp hi).2] at this
      exact absurd (hqu.trans hpu.symm) this

/-- An Unused reward's id is held by nobody. -/
theorem not_held_of_unused {rewards : List Reward} {stats : Stats}
    (hinv : InvAtParts rewards stats) {k : Nat} {r : Reward}
    (hr : rewards[k]? = some r) (hst : r.object_state = ObjectState.Unused) :
    ∀ p ∈ stats, r.id ∉ p.2.pending_rewards ∧ r.id ∉ p.2.retrieved_rewards := by
  intro p hp
  constructor
  · intro hmem
    obtain ⟨r0, hr0mem, hr0id, hr0st⟩ := hinv.2.2.1 p hp r.id hmem
    have : r0 = r := nodup_id_unique hinv.1 hr0mem
      (List.mem_iff_getElem?.mpr ⟨k, hr⟩) hr0id
    rw [this, hst] at hr0st
    cases hr0st
  · intro hmem
    obtain ⟨r0, hr0mem, hr0id, hr0st⟩ := hinv.2.2.2.1 p hp r.id hmem
    have : r0 = r := nodup_id_unique hinv.1 hr0mem
      (List.mem_iff_getElem?.mpr ⟨k, hr⟩) hr0id
    rw [this, hst] at hr0st
    cases hr0st

/-- Preservation of the invariant under the one update shape shared by
roll, confirm and deny: the reward at position `k` gets state `snew` and
the caller's ledger entry becomes `dnew`. -/
theorem invAt_update {rewards : List Reward} {stats : Stats} {user k : Nat}
    {r : Reward} {d dnew : ParticipantStats} {snew : ObjectState}
    (hinv : InvAtParts rewards stats) (hr : rewards[k]? = some r)
    (hd : statsFind stats user = some d)
    (ha1 : ∀ id ∈ dnew.pending_rewards, id = r.id ∨ id ∈ d.pending_rewards)
    (ha2 : r.id ∈ dnew.pending_rewards → snew = ObjectState.Pending)
    (hb1 : ∀ id ∈ dnew.retrieved_rewards, id = r.id ∨ id ∈ d.retrieved_rewards)
    (hb2 : r.id ∈ dnew.retrieved_rewards → snew = ObjectState.Activated)
    (hc : r.object_state = ObjectState.Unused ∨ r.id ∈ d.pending_rewards) :
    InvAtParts (rewards.set k { r with object_state := snew })
      (statsSet stats user dnew) := by
  obtain ⟨hnd, hkeys, hpend, hretr, hown⟩ := hinv
  have hinv0 : InvAtParts rewards stats := ⟨hnd, hkeys, hpend, hretr, hown⟩
  obtain ⟨q0, hq0, hq0u, hq0d⟩ := statsFind_mem hd
  have hklt : k < rewards.length := (List.getElem?_eq_some.mp hr).1
  have hmemnew : { r with object_state := snew } ∈
      rewards.set k { r with object_state := snew } :=
    List.mem_iff_getElem?.mpr ⟨k, List.getElem?_set_self (by simpa using hklt)⟩
  have preserve : ∀ {id : Nat} {st : ObjectState}, id ≠ r.id →
      (∃ r0 ∈ rewards, r0.id = id ∧ r0.object_state = st) →
      ∃ r0 ∈ rewards.set k { r with object_state := snew },
        r0.id = id ∧ r0.object_state = st := by
    intro id st hne hex
    obtain ⟨r0, h0mem, h0id, h0st⟩ := hex
    obtain ⟨i, hi⟩ := List.getElem?_of_mem h0mem
    have hik : i ≠ k := by
      intro he
      rw [he, hr] at hi
      exact hne (by rw [← h0id, Option.some.inj hi])
    refine ⟨r0, List.mem_iff_getElem?.mpr ⟨i, ?_⟩, h0id, h0st⟩
    rw [List.getElem?_set_ne (fun he => hik he.symm)]
    exact hi
  have nobody_else : ∀ p ∈ stats, p.1 ≠ user →
      r.id ∉ p.2.pending_rewards ∧ r.id ∉ p.2.retrieved_rewards := by
    intro p hp hpu
    rcases hc with hun | hheld
    · exact not_held_of_unused hinv0 hr hun p hp
    · constructor
      · intro hmem
        exact hpu ((hown p hp q0 hq0 r.id (Finset.mem_union_left _ hmem)
          (Finset.mem_union_left _ (hq0d ▸ hheld))).trans hq0u)
      · intro hmem
        exact hpu ((hown p hp q0 hq0 r.id (Finset.mem_union_right _ hmem)
          (Finset.mem_union_left _ (hq0d ▸ hheld))).trans hq0u)
  refine ⟨?_, statsSet_keys_nodup hkeys, ?_, ?_, ?_⟩
  · rw [map_id_set_same hr
      (show ({ r with object_state := snew } : Reward).id = r.id from rfl)]
    exact hnd
  · intro p' hp' id hid
    obtain ⟨p, hp, hcase⟩ := mem_statsSet hp'
    rcases hcase with ⟨hpu, hpe⟩ | ⟨hpu, hpe⟩
    · have hid2 : id ∈ dnew.pending_rewards := by rw [hpe] at hid; exact hid
      by_cases hir : id = r.id
      · subst hir
        refine ⟨{ r with object_state := snew }, hmemnew, rfl, ha2 hid2⟩
      · rcases ha1 id hid2 with he | hmemd
        · exact absurd he hir
        · exact preserve hir (hpend q0 hq0 id (hq0d ▸ hmemd))
    · have hid2 : id ∈ p.2.pending_rewards := by rw [hpe] at hid; exact hid
      by_cases hir : id = r.id
      · subst hir
        exact absurd hid2 (nobody_else p hp hpu).1
      · exact preserve hir (hpend p hp id hid2)
  · intro p' hp' id hid
    obtain ⟨p, hp, hcase⟩ := mem_statsSet hp'
    rcases hcase with ⟨hpu, hpe⟩ | ⟨hpu, hpe⟩
    · have hid2 : id ∈ dnew.retrieved_rewards := by rw [hpe] at hid; exact hid
      by_cases hir : id = r.id
      · subst hir
        refine ⟨{ r with object_state := snew }, hmemnew, rfl, hb2 hid2⟩
      · rcases hb1 id hid2 with he | hmemd
        · exact absurd he hir
        · exact preserve hir (hretr q0 hq0 id (hq0d ▸ hmemd))
    · have hid2 : id ∈ p.2.retrieved_rewards := by rw [hpe] at hid; exact hid
      by_cases hir : id = r.id
      · subst hir
        exact absurd hid2 (nobody_else p hp hpu).2
      · exact preserve hir (hretr p hp id hid2)
  · intro p' hp' q' hq' id hidp hidq
    obtain ⟨p, hp, hcasep⟩ := mem_statsSet hp'
    obtain ⟨q, hq, hcaseq⟩ := mem_statsSet hq'
    have hmem_old : ∀ (x : Nat × ParticipantStats), x ∈ stats → x.1 ≠ user →
        ∀ idx, idx ∈ x.2.pending_rewards ∪ x.2.retrieved_rewards → idx = r.id →
        False := by
      intro x hx hxu idx hidx hieq
      subst hieq
      rcases Finset.mem_union.mp hidx with hh | hh
      · exact (nobody_else x hx hxu).1 hh
      · exact (nobody_else x hx hxu).2 hh
    have old_of_new : ∀ idx, idx ∈ dnew.pending_rewards ∪ dnew.retrieved_rewards →
        idx = r.id ∨ idx ∈ d.pending_rewards ∪ d.retrieved_rewards := by
      intro idx hidx
      rcases Finset.mem_union.mp hidx with hh | hh
      · rcases ha1 idx hh with he | hm
        · exact Or.inl he
        · exact Or.inr (Finset.mem_union_left _ hm)
      · rcases hb1 idx hh with he | hm
        · exact Or.inl he
        · exact Or.inr (Finset.mem_union_right _ hm)
    rcases hcasep with ⟨hpu, hpe⟩ | ⟨hpu, hpe⟩ <;>
      rcases hcaseq with ⟨hqu, hqe⟩ | ⟨hqu, hqe⟩
    · rw [hpe, hqe]
      rw [hpu, hqu]
    · rw [hpe] at hidp
      rw [hqe] at hidq
      rcases old_of_new id hidp with he | hm
      · exact (hmem_old q hq hqu id hidq he).elim
      · rw [hpe, hqe]
        show p.1 = q.1
        rw [hpu, ← hq0u]
        exact (hown q hq q0 hq0 id hidq (hq0d ▸ hm)).symm
    · rw [hpe] at hidp
      rw [hqe] at hidq
      rcases old_of_new id hidq with he | hm
      · exact (hmem_old p hp hpu id hidp he).elim
      · rw [hpe, hqe]
        show p.1 = q.1
        rw [hqu, ← hq0u]
        exact hown p hp q0 hq0 id hidp (hq0d ▸ hm)
    · rw [hpe] at hidp
      rw [hqe] at hidq
      rw [hpe, hqe]
      show p.1 = q.1
      exact hown p hp q hq id hidp hidq

/-- Adding a fresh empty ledger entry preserves the invariant. -/
theorem invAtParts_append_new {rewards : List Reward} {stats : Stats} {user : Nat}
    (hinv : InvAtParts rewards stats) (hnone : statsFind stats user = none) :
    InvAtParts rewards (stats ++ [(user, ParticipantStats.new)]) := by
  obtain ⟨hnd, hkeys, hpend, hretr, hown⟩ := hinv
  have hkey_ne : ∀ p ∈ stats, p.1 ≠ user := by
    intro p hp he
    unfold statsFind at hnone
    rw [Option.map_eq_none'] at hnone
    have := List.find?_eq_none.mp hnone p hp
    simp [he] at this
  have hempty : ∀ idx : Nat, idx ∉ ParticipantStats.new.pending_rewards ∧
      idx ∉ ParticipantStats.new.retrieved_rewards := by
    intro idx
    exact ⟨Finset.not_mem_empty idx, Finset.not_mem_empty idx⟩
  refine ⟨hnd, ?_, ?_, ?_, ?_⟩
  · rw [List.pairwise_append]
    refine ⟨hkeys, List.pairwise_singleton _ _, ?_⟩
    intro a ha b hb
    have hbe : b = (user, ParticipantStats.new) := by simpa using hb
    rw [hbe]
    exact hkey_ne a ha
  · intro p hp id hid
    rcases List.mem_append.mp hp with hp2 | hp2
    · exact hpend p hp2 id hid
    · have hpe : p = (user, ParticipantStats.new) := by simpa using hp2
      rw [hpe] at hid
      exact absurd hid (hempty id).1
  · intro p hp id hid
    rcases List.mem_append.mp hp with hp2 | hp2
    · exact hretr p hp2 id hid
    · have hpe : p = (user, ParticipantStats.new) := by simpa using hp2
      rw [hpe] at hid
      exact absurd hid (hempty id).2
  · intro p hp q hq id hidp hidq
    rcases List.mem_append.mp hp with hp2 | hp2
    · rcases List.mem_append.mp hq with hq2 | hq2
      · exact hown p hp2 q hq2 id hidp hidq
      · have hqe : q = (user, ParticipantStats.new) := by simpa using hq2
        rw [hqe] at hidq
        rcases Finset.mem_union.mp hidq with hh | hh
        · exact absurd hh (hempty id).1
        · exact absurd hh (hempty id).2
    · have hpe : p = (user, ParticipantStats.new) := by simpa using hp2
      rw [hpe] at hidp
      rcases Finset.mem_union.mp hidp with hh | hh
      · exact absurd hh (hempty id).1
      · exact absurd hh (hempty id).2

/-- The per-ledger properties the specification states, derived from the
invariant: a reward id is in at most one of the two sets, and the ledger
always agrees with the reward's own state. -/
theorem invAtParts_ledger {rewards : List Reward} {stats : Stats}
    (hinv : InvAtParts rewards stats) :
    (∀ p ∈ stats, ∀ id ∈ p.2.pending_rewards, id ∉ p.2.retrieved_rewards) ∧
    (∀ p ∈ stats, ∀ id ∈ p.2.pending_rewards, ∀ r ∈ rewards, r.id = id →
      r.object_state = ObjectState.Pending) ∧
    (∀ p ∈ stats, ∀ id ∈ p.2.retrieved_rewards, ∀ r ∈ rewards, r.id = id →
      r.object_state = ObjectState.Activated) := by
  have agree_p : ∀ p ∈ stats, ∀ id ∈ p.2.pending_rewards, ∀ r ∈ rewards, r.id = id →
      r.object_state = ObjectState.Pending := by
    intro p hp id hid r hr hrid
    obtain ⟨r0, h0mem, h0id, h0st⟩ := hinv.2.2.1 p hp id hid
    rw [nodup_id_unique hinv.1 hr h0mem (hrid.trans h0id.symm)]
    exact h0st
  have agree_r : ∀ p ∈ stats, ∀ id ∈ p.2.retrieved_rewards, ∀ r ∈ rewards, r.id = id →
      r.object_state = ObjectState.Activated := by
    intro p hp id hid r hr hrid
    obtain ⟨r0, h0mem, h0id, h0st⟩ := hinv.2.2.2.1 p hp id hid
    rw [nodup_id_unique hinv.1 hr h0mem (hrid.trans h0id.symm)]
    exact h0st
  refine ⟨?_, agree_p, agree_r⟩
  intro p hp id hidp hidr
  obtain ⟨r0, h0mem, h0id, h0st⟩ := hinv.2.2.1 p hp id hidp
  have := agree_r p hp id hidr r0 h0mem h0id
  rw [h0st] at this
  cases this

/-- C5: every participant operation preserves the ledger/state agreement
invariant, so in every state reachable from a well-formed one a reward id
appears in at most one of `pending_rewards`/`retrieved_rewards` of a
ledger, and only while the reward's own state is Pending (pending) or
Activated (retrieved). -/
theorem c5_ledger_agreement (m m' : GiveawayManager) (op : ManagerOp)
    (res : Except String Unit) (happ : applyOp m op = (res, m'))
    (j : Nat) (g g' : Giveaway)
    (hg : m.giveaways[j]? = some g) (hg' : m'.giveaways[j]? = some g')
    (hinv : InvAt g) :
    InvAt g' ∧
    (∀ p ∈ g'.stats, ∀ id ∈ p.2.pending_rewards, id ∉ p.2.retrieved_rewards) ∧
    (∀ p ∈ g'.stats, ∀ id ∈ p.2.pending_rewards, ∀ r ∈ g'.rewards, r.id = id →
      r.object_state = ObjectState.Pending) ∧
    (∀ p ∈ g'.stats, ∀ id ∈ p.2.retrieved_rewards, ∀ r ∈ g'.rewards, r.id = id →
      r.object_state = ObjectState.Activated) := by
  suffices hInv : InvAt g' by
    obtain ⟨h1, h2, h3⟩ := invAtParts_ledger hInv
    exact ⟨hInv, h1, h2, h3⟩
  have from_same : m' = m → InvAt g' := by
    intro he
    rw [he] at hg'
    rw [Option.some.inj (hg'.symm.trans hg)]
    exact hinv
  have from_other : ∀ (index : Nat) (gx : Giveaway), j ≠ index - 1 →
      m' = m.setGiveaway index gx → InvAt g' := by
    intro index gx hji hm
    rw [hm, GiveawayManager.setGiveaway] at hg'
    rw [List.getElem?_set_ne (fun he => hji he.symm)] at hg'
    rw [Option.some.inj (hg'.symm.trans hg)]
    exact hinv
  have at_slot : ∀ (index : Nat) (gx : Giveaway), j = index - 1 →
      m' = m.setGiveaway index gx → gx = g' := by
    intro index gx hji hm
    rw [hm, GiveawayManager.setGiveaway] at hg'
    have hlt : j < m.giveaways.length := (List.getElem?_eq_some.mp hg).1
    rw [hji] at hg' hlt
    rw [List.getElem?_set_self hlt] at hg'
    exact Option.some.inj hg'
  have from_bump : ∀ (index : Nat) (g0 : Giveaway),
      m.giveaways[index - 1]? = some g0 →
      m' = m.setGiveaway index g0.update_actions_processed → InvAt g' := by
    intro index g0 hg0 hm
    by_cases hji : j = index - 1
    · have hgg : g = g0 := Option.some.inj ((hji ▸ hg : _).symm.trans hg0)
      subst hgg
      rw [← at_slot index g.update_actions_processed hji hm]
      exact hinv
    · exact from_other index _ hji hm
  have from_bump_insert : ∀ (index user : Nat) (g0 : Giveaway),
      m.giveaways[index - 1]? = some g0 →
      statsFind g0.update_actions_processed.stats user = none →
      m' = m.setGiveaway index
        { g0.update_actions_processed with
          stats := statsInsert g0.update_actions_processed.stats user
            ParticipantStats.new } → InvAt g' := by
    intro index user g0 hg0 hnone hm
    by_cases hji : j = index - 1
    · have hgg : g = g0 := Option.some.inj ((hji ▸ hg : _).symm.trans hg0)
      subst hgg
      rw [← at_slot index _ hji hm]
      show InvAtParts g.update_actions_processed.rewards
        (statsInsert g.update_actions_processed.stats user ParticipantStats.new)
      rw [statsInsert_of_none hnone]
      exact invAtParts_append_new hinv hnone
    · exact from_other index _ hji hm
  cases op with
  | roll user index reward_number =>
    rcases hrr : m.roll_reward user index reward_number with ⟨r1, m2⟩
    simp only [applyOp, hrr] at happ
    rw [Prod.mk.injEq] at happ
    obtain ⟨h1, h2⟩ := happ
    subst h2
    unfold GiveawayManager.roll_reward at hrr
    rcases hres : m.get_giveaway_by_index index with e0 | g0
    · simp only [hres] at hrr
      rw [Prod.mk.injEq] at hrr
      exact from_same hrr.2.symm
    · simp only [hres] at hrr
      obtain ⟨hb, hg0⟩ := get_giveaway_by_index_ok hres
      rcases hact : g0.active with _ | _
      · rw [hact] at hrr
        simp only [Bool.not_false, if_true] at hrr
        rw [Prod.mk.injEq] at hrr
        exact from_same hrr.2.symm
      · rw [hact] at hrr
        simp only [Bool.not_true, Bool.false_eq_true, if_false] at hrr
        rcases hroll : ManualSelectStrategy.roll user g0.update_actions_processed.stats
            g0.update_actions_processed.rewards (some reward_number) with e1 | selected
        · simp only [hroll] at hrr
          rw [Prod.mk.injEq] at hrr
          exact from_bump index g0 hg0 hrr.2.symm
        · obtain ⟨k, hk, hkb, hkr, hks⟩ := roll_ok_inv hroll
          cases hk
          rcases hd : statsFind g0.update_actions_processed.stats user with _ | d
          · simp only [hroll, hd, statsFind_statsInsert_self] at hrr
            rw [Prod.mk.injEq] at hrr
            by_cases hji : j = index - 1
            · have hgg : g = g0 := Option.some.inj ((hji ▸ hg : _).symm.trans hg0)
              subst hgg
              have hinv1 : InvAtParts g.update_actions_processed.rewards
                  g.update_actions_processed.stats := hinv
              have hinvmid := invAtParts_append_new hinv1 hd
              have hdmid : statsFind (g.update_actions_processed.stats ++
                  [(user, ParticipantStats.new)]) user = some ParticipantStats.new := by
                rw [← statsInsert_of_none hd]
                exact statsFind_statsInsert_self _ _ _
              rw [← at_slot index _ hji hrr.2.symm]
              show InvAtParts _ _
              rw [statsInsert_of_none hd]
              rcases hp : selected.is_preorder with _ | _ <;>
                simp only [GiveawayManager.get_next_reward_state_after_roll, hp]
              · refine invAt_update hinvmid hkr hdmid ?_ ?_ ?_ ?_ (Or.inl hks)
                · intro id hid
                  exact Or.inl (by simpa [ParticipantStats.add_pending_reward,
                    ParticipantStats.new] using hid)
                · intro _
                  rfl
                · intro id hid
                  exact (by simpa [ParticipantStats.add_pending_reward,
                    ParticipantStats.new] using hid : False).elim
                · intro hid
                  exact (by simpa [ParticipantStats.add_pending_reward,
                    ParticipantStats.new] using hid : False).elim
              · refine invAt_update hinvmid hkr hdmid ?_ ?_ ?_ ?_ (Or.inl hks)
                · intro id hid
                  exact (by simpa [ParticipantStats.add_retrieved_reward,
                    ParticipantStats.new] using hid : False).elim
                · intro hid
                  exact (by simpa [ParticipantStats.add_retrieved_reward,
                    ParticipantStats.new] using hid : False).elim
                · intro id hid
                  exact Or.inl (by simpa [ParticipantStats.add_retrieved_reward,
                    ParticipantStats.new] using hid)
                · intro _
                  rfl
            · exact from_other index _ hji hrr.2.symm
          · simp only [hroll, hd] at hrr
            rw [Prod.mk.injEq] at hrr
            by_cases hji : j = index - 1
            · have hgg : g = g0 := Option.some.inj ((hji ▸ hg : _).symm.trans hg0)
              subst hgg
              have hinv1 : InvAtParts g.update_actions_processed.rewards
                  g.update_actions_processed.stats := hinv
              have hheld := not_held_of_unused hinv1 hkr hks
              obtain ⟨q0, hq0, hq0u, hq0d⟩ := statsFind_mem hd
              rw [← at_slot index _ hji hrr.2.symm]
              show InvAtParts _ _
              rcases hp : selected.is_preorder with _ | _ <;>
                simp only [GiveawayManager.get_next_reward_state_after_roll, hp]
              · refine invAt_update hinv1 hkr hd ?_ ?_ ?_ ?_ (Or.inl hks)
                · intro id hid
                  exact Finset.mem_insert.mp
                    (by simpa [ParticipantStats.add_pending_reward] using hid)
                · intro _
                  rfl
                · intro id hid
                  exact Or.inr (by simpa [ParticipantStats.add_pending_reward] using hid)
                · intro hid
                  exact absurd (hq0d ▸ (by simpa [ParticipantStats.add_pending_reward]
                    using hid : selected.id ∈ d.retrieved_rewards))
                    ((hheld q0 hq0).2)
              · refine invAt_update hinv1 hkr hd ?_ ?_ ?_ ?_ (Or.inl hks)
                · intro id hid
                  exact Or.inr (by simpa [ParticipantStats.add_retrieved_reward] using hid)
                · intro hid
                  exact absurd (hq0d ▸ (by simpa [ParticipantStats.add_retrieved_reward]
                    using hid : selected.id ∈ d.pending_rewards))
                    ((hheld q0 hq0).1)
                · intro id hid
                  exact Finset.mem_insert.mp
                    (by simpa [ParticipantStats.add_retrieved_reward] using hid)
                · intro _
                  rfl
            · exact from_other index _ hji hrr.2.symm
  | confirm user index reward_index =>
    unfold applyOp GiveawayManager.confirm_reward at happ
    rcases hres : m.get_giveaway_by_index index with e0 | g0
    · simp only [hres] at happ
      rw [Prod.mk.injEq] at happ
      exact from_same happ.2.symm
    · simp only [hres] at happ
      obtain ⟨hb, hg0⟩ := get_giveaway_by_index_ok hres
      rcases hact : g0.active with _ | _
      · rw [hact] at happ
        simp only [Bool.not_false, if_true] at happ
        rw [Prod.mk.injEq] at happ
        exact from_same happ.2.symm
      · rw [hact] at happ
        simp only [Bool.not_true, Bool.false_eq_true, if_false] at happ
        by_cases hib : reward_index > 0 ∧
            reward_index < g0.update_actions_processed.rewards.length + 1
        · rw [if_pos hib] at happ
          rcases hsel : g0.update_actions_processed.rewards[reward_index - 1]?
            with _ | selected
          · simp only [hsel] at happ
            rw [Prod.mk.injEq] at happ
            exact from_bump index g0 hg0 happ.2.symm
          · simp only [hsel] at happ
            rcases hd : statsFind g0.update_actions_processed.stats user with _ | d
            · simp only [hd] at happ
              rw [Prod.mk.injEq] at happ
              exact from_bump_insert index user g0 hg0 hd happ.2.symm
            · simp only [hd] at happ
              rcases hmv : GiveawayManager.move_reward_to_retrieved d selected
                with e1 | mres
              · simp only [hmv] at happ
                rw [Prod.mk.injEq] at happ
                exact from_bump index g0 hg0 happ.2.symm
              · simp only [hmv] at happ
                rw [Prod.mk.injEq] at happ
                obtain ⟨hsp, hsmem, hreseq⟩ := move_reward_to_retrieved_ok_inv hmv
                rw [hreseq] at happ
                by_cases hji : j = index - 1
                · have hgg : g = g0 := Option.some.inj ((hji ▸ hg : _).symm.trans hg0)
                  subst hgg
                  have hinv1 : InvAtParts g.update_actions_processed.rewards
                      g.update_actions_processed.stats := hinv
                  rw [← at_slot index _ hji happ.2.symm]
                  show InvAtParts _ _
                  refine invAt_update hinv1 hsel hd ?_ ?_ ?_ ?_ (Or.inr hsmem)
                  · intro id hid
                    have hid2 : id ∈ d.pending_rewards.erase selected.id := by
                      simpa [ParticipantStats.add_retrieved_reward,
                        ParticipantStats.remove_pending_reward] using hid
                    exact Or.inr (Finset.mem_of_mem_erase hid2)
                  · intro hid
                    have hid2 : selected.id ∈ d.pending_rewards.erase selected.id := by
                      simpa [ParticipantStats.add_retrieved_reward,
                        ParticipantStats.remove_pending_reward] using hid
                    exact absurd hid2 (Finset.not_mem_erase _ _)
                  · intro id hid
                    exact Finset.mem_insert.mp
                      (by simpa [ParticipantStats.add_retrieved_reward,
                        ParticipantStats.remove_pending_reward] using hid)
                  · intro _
                    rfl
                · exact from_other index _ hji happ.2.symm
        · rw [if_neg hib] at happ
          rw [Prod.mk.injEq] at happ
          exact from_bump index g0 hg0 happ.2.symm
  | deny user index reward_index =>
    unfold applyOp GiveawayManager.deny_reward at happ
    rcases hres : m.get_giveaway_by_index index with e0 | g0
    · simp only [hres] at happ
      rw [Prod.mk.injEq] at happ
      exact from_same happ.2.symm
    · simp only [hres] at happ
      obtain ⟨hb, hg0⟩ := get_giveaway_by_index_ok hres
      rcases hact : g0.active with _ | _
      · rw [hact] at happ
        simp only [Bool.not_false, if_true] at happ
        rw [Prod.mk.injEq] at happ
        exact from_same happ.2.symm
      · rw [hact] at happ
        simp only [Bool.not_true, Bool.false_eq_true, if_false] at happ
        by_cases hib : reward_index > 0 ∧
            reward_index < g0.update_actions_processed.rewards.length + 1
        · rw [if_pos hib] at happ
          rcases hsel : g0.update_actions_processed.rewards[reward_index - 1]?
            with _ | selected
          · simp only [hsel] at happ
            rw [Prod.mk.injEq] at happ
            exact from_bump index g0 hg0 happ.2.symm
          · simp only [hsel] at happ
            rcases hd : statsFind g0.update_actions_processed.stats user with _ | d
            · simp only [hd] at happ
              rw [Prod.mk.injEq] at happ
              exact from_bump_insert index user g0 hg0 hd happ.2.symm
            · simp only [hd] at happ
              rcases hmv : GiveawayManager.rollback_reward_to_unused d selected
                with e1 | mres
              · simp only [hmv] at happ
                rw [Prod.mk.injEq] at happ
                exact from_bump index g0 hg0 happ.2.symm
              · simp only [hmv] at happ
                rw [Prod.mk.injEq] at happ
                obtain ⟨hsp, hsmem, hreseq⟩ := rollback_reward_to_unused_ok_inv hmv
                rw [hreseq] at happ
                by_cases hji : j = index - 1
                · have hgg : g = g0 := Option.some.inj ((hji ▸ hg : _).symm.trans hg0)
                  subst hgg
                  have hinv1 : InvAtParts g.update_actions_processed.rewards
                      g.update_actions_processed.stats := hinv
                  obtain ⟨q0, hq0, hq0u, hq0d⟩ := statsFind_mem hd
                  have hselmem : selected ∈ g.update_actions_processed.rewards :=
                    List.mem_iff_getElem?.mpr ⟨reward_index - 1, hsel⟩
                  rw [← at_slot index _ hji happ.2.symm]
                  show InvAtParts _ _
                  refine invAt_update hinv1 hsel hd ?_ ?_ ?_ ?_ (Or.inr hsmem)
                  · intro id hid
                    have hid2 : id ∈ d.pending_rewards.erase selected.id := by
                      simpa [ParticipantStats.remove_pending_reward] using hid
                    exact Or.inr (Finset.mem_of_mem_erase hid2)
                  · intro hid
                    have hid2 : selected.id ∈ d.pending_rewards.erase selected.id := by
                      simpa [ParticipantStats.remove_pending_reward] using hid
                    exact absurd hid2 (Finset.not_mem_erase _ _)
                  · intro id hid
                    exact Or.inr (by simpa [ParticipantStats.remove_pending_reward] using hid)
                  · intro hid
                    have hid2 : selected.id ∈ d.retrieved_rewards := by
                      simpa [ParticipantStats.remove_pending_reward] using hid
                    have := (invAtParts_ledger hinv1).2.2 q0 hq0 selected.id
                      (hq0d ▸ hid2) selected hselmem rfl
                    rw [hsp] at this
                    cases this
                · exact from_other index _ hji happ.2.symm
        · rw [if_neg hib] at happ
          rw [Prod.mk.injEq] at happ
          exact from_bump index g0 hg0 happ.2.symm

/-- The state of `exPendingGiveaway` after user 7 confirms reward 1. -/
def exAfterConfirm : Giveaway :=
  { exPendingGiveaway with
    actions_processed := 1
    stats := [(7, ⟨∅, {1}⟩)]
    rewards := [{ pendingKeyReward with object_state := ObjectState.Activated },
      plainReward] }

/-- Witness for C5 at a concrete confirm: the well-formed pending state
satisfies the invariant and the state after the confirm still does. -/
theorem c5_ledger_agreement_witness :
    InvAt exPendingGiveaway ∧ InvAt exAfterConfirm := by
  have h := c5_ledger_agreement exM3 (exM3.confirm_reward 7 1 1).2
    (ManagerOp.confirm 7 1 1) (exM3.confirm_reward 7 1 1).1 rfl
    0 exPendingGiveaway exAfterConfirm rfl (by decide) (by decide)
  exact ⟨by decide, h.1⟩

/-! ## C8: the message parser -/

/-- Every element of `cs.take n` satisfies `p` when `n` does not exceed
the length of the maximal `p`-prefix of `cs`. -/
theorem take_subset_takeWhile (p : Char → Bool) :
    ∀ (cs : List Char) (n : Nat), n ≤ (cs.takeWhile p).length →
      ∀ c ∈ cs.take n, p c = true := by
  intro cs
  induction cs with
  | nil => intro n _ c hc; simp at hc
  | cons a t ih =>
    intro n hn c hc
    by_cases hpa : p a
    · match n with
      | 0 => simp at hc
      | Nat.succ m =>
        rw [List.take_succ_cons] at hc
        rcases List.mem_cons.mp hc with rfl | hc2
        · exact hpa
        · refine ih m ?_ c hc2
          rw [List.takeWhile_cons, if_pos hpa, List.length_cons] at hn
          exact Nat.le_of_succ_le_succ hn
    · rw [List.takeWhile_cons, if_neg hpa, List.length_nil] at hn
      have hn0 : n = 0 := Nat.le_zero.mp hn
      subst hn0
      simp at hc

/-- A list holding a non-whitespace element does not trim to empty. -/
theorem rustTrim_ne_nil {cs : List Char} {x : Char} (hx : x ∈ cs)
    (hw : rustIsWhitespace x = false) : rustTrim cs ≠ [] := by
  intro he
  unfold rustTrim at he
  rw [List.reverse_eq_nil_iff, List.dropWhile_eq_nil_iff] at he
  have hx2 : x ∈ cs.takeWhile rustIsWhitespace ++ cs.dropWhile rustIsWhitespace := by
    rw [List.takeWhile_append_dropWhile]
    exact hx
  rcases List.mem_append.mp hx2 with h1 | h2
  · exact absurd (List.mem_takeWhile_imp h1) (by simp [hw])
  · exact absurd (he x (List.mem_reverse.mpr h2)) (by simp [hw])

/-- Packing a nonempty character list never gives the empty string. -/
theorem stringMk_ne_empty {l : List Char} (h : l ≠ []) : String.mk l ≠ "" := by
  intro he
  exact h (congrArg String.data he)

/-- A description captured by the arrow-suffix matcher starts with a
non-whitespace character (the regex eats the whitespace run after the
arrow before the capture starts). -/
theorem wsArrowMatch_some_desc {cs d : List Char}
    (h : wsArrowMatch cs = some (some d)) :
    ∃ x ∈ d, rustIsWhitespace x = false := by
  unfold wsArrowMatch at h
  split at h
  · rename_i rest heq
    simp only [] at h
    split at h
    · exact absurd h (by simp)
    · rename_i hne
      rw [Option.some.injEq, Option.some.injEq] at h
      subst h
      rcases hA : rest.dropWhile rustIsWhitespace with _ | ⟨y, t2⟩
      · rw [hA] at hne
        simp at hne
      · have hh := List.head?_dropWhile_not rustIsWhitespace rest
        rw [hA] at hh
        simp only [List.head?_cons] at hh
        by_cases hy : y = '\n'
        · rw [hA] at hne
          simp [List.takeWhile_cons, hy] at hne
        · refine ⟨y, ?_, hh⟩
          rw [List.takeWhile_cons]
          simp [hy]
  · exact absurd h (by simp)

/-- The skipped-bracket branch of `tryAfterValue` captures no
object_info, and its description (when captured) starts with a
non-whitespace character. -/
theorem skippedMatch_inv {cs : List Char} {info d : Option (List Char)}
    (h : (wsArrowMatch cs).map
      (fun dd => ((none : Option (List Char)), dd)) = some (info, d)) :
    info = none ∧
    (∀ dd, d = some dd → ∃ x ∈ dd, rustIsWhitespace x = false) := by
  rw [Option.map_eq_some'] at h
  obtain ⟨d0, hws, heq⟩ := h
  rw [Prod.mk.injEq] at heq
  refine ⟨heq.1.symm, ?_⟩
  intro dd hdd
  rw [← heq.2] at hdd
  rw [hdd] at hws
  exact wsArrowMatch_some_desc hws

/-- Inversion of `tryAfterValue`: a captured object_info starts with an
opening bracket, and a captured description starts with a non-whitespace
character. -/
theorem tryAfterValue_some_inv {cs : List Char} {info d : Option (List Char)}
    (h : tryAfterValue cs = some (info, d)) :
    (∀ i, info = some i → ∃ t, i = '[' :: t) ∧
    (∀ dd, d = some dd → ∃ x ∈ dd, rustIsWhitespace x = false) := by
  unfold tryAfterValue at h
  simp only [] at h
  split at h
  · rename_i rest
    split at h
    · rename_i res heqf
      rw [Option.some.injEq] at h
      subst h
      obtain ⟨k, hkmem, hfk⟩ := List.exists_of_findSome?_eq_some heqf
      rw [Option.map_eq_some'] at hfk
      obtain ⟨d0, hws, heq2⟩ := hfk
      rw [Prod.mk.injEq] at heq2
      constructor
      · intro i hi
        rw [← heq2.1, Option.some.injEq] at hi
        exact ⟨rest.take k ++ [']'], hi.symm⟩
      · intro dd hdd
        rw [← heq2.2] at hdd
        rw [hdd] at hws
        exact wsArrowMatch_some_desc hws
    · obtain ⟨hinfo, hdesc⟩ := skippedMatch_inv h
      refine ⟨?_, hdesc⟩
      intro i hi
      rw [hinfo] at hi
      exact absurd hi (by simp)
  · obtain ⟨hinfo, hdesc⟩ := skippedMatch_inv h
    refine ⟨?_, hdesc⟩
    intro i hi
    rw [hinfo] at hi
    exact absurd hi (by simp)

/-- Inversion of `regexCaptures`: a captured value is the trim source of
a nonempty bracket-free prefix of the input, a captured object_info
starts with an opening bracket, and a captured description starts with a
non-whitespace character. -/
theorem regexCaptures_some_inv {cs : List Char} {v info d : Option (List Char)}
    (h : regexCaptures cs = some (v, info, d)) :
    ((∃ vc rest2, cs = vc ++ rest2 ∧ vc ≠ [] ∧
        (∀ c ∈ vc, ¬(c = '[')) ∧ v = some vc) ∨ v = none) ∧
    (∀ i, info = some i → ∃ t, i = '[' :: t) ∧
    (∀ dd, d = some dd → ∃ x ∈ dd, rustIsWhitespace x = false) := by
  unfold regexCaptures at h
  simp only [] at h
  split at h
  · rename_i res heqf
    rw [Option.some.injEq] at h
    subst h
    obtain ⟨j, hjmem, hfj⟩ := List.exists_of_findSome?_eq_some heqf
    rw [List.mem_reverse, List.mem_range] at hjmem
    rw [Option.map_eq_some'] at hfj
    obtain ⟨⟨i0, d0⟩, htav, heq2⟩ := hfj
    simp only [] at heq2
    rw [Prod.mk.injEq, Prod.mk.injEq] at heq2
    obtain ⟨hv, hinfo, hd⟩ := heq2
    have hinv := tryAfterValue_some_inv htav
    refine ⟨?_, ?_, ?_⟩
    · refine Or.inl ⟨cs.take (j + 1), cs.drop (j + 1),
        (List.take_append_drop (j + 1) cs).symm, ?_, ?_, hv.symm⟩
      · intro hnil
        rcases List.take_eq_nil_iff.mp hnil with h0 | h0
        · exact absurd h0 (Nat.succ_ne_zero j)
        · rw [h0] at hjmem
          simp at hjmem
      · intro c hc
        have hp := take_subset_takeWhile (fun c => c ≠ '[') cs (j + 1)
          hjmem c hc
        simpa using hp
    · intro i hi
      rw [← hinfo] at hi
      exact hinv.1 i hi
    · intro dd hdd
      rw [← hd] at hdd
      exact hinv.2 dd hdd
  · rw [Option.map_eq_some'] at h
    obtain ⟨⟨i0, d0⟩, htav, heq2⟩ := h
    simp only [] at heq2
    rw [Prod.mk.injEq, Prod.mk.injEq] at heq2
    have hinv := tryAfterValue_some_inv htav
    refine ⟨Or.inr heq2.1.symm, ?_, ?_⟩
    · intro i hi
      rw [← heq2.2.1] at hi
      exact hinv.1 i hi
    · intro dd hdd
      rw [← heq2.2.2] at hdd
      exact hinv.2 dd hdd

/-- C8 (amended): a text without `->` parses verbatim as Other with no
description and no object_info; a text with `->` that the regex accepts
parses with object_type Key (never KeyPreorder), a captured description
or object_info is trimmed and nonempty (`none`, never an empty string,
when absent), and the value is the trim of a nonempty bracket-free
prefix of the input when the value group participates — otherwise the
whole raw input verbatim, untrimmed; a text with `->` that the regex
rejects makes the source panic (`none` here). -/
theorem c8_parse_message_amended :
    (∀ text : String, containsArrow text.data = false →
      parse_message text = some ⟨text, none, none, ObjectType.Other⟩) ∧
    (∀ (text : String) (p : ParsedInput),
      containsArrow text.data = true → parse_message text = some p →
      p.object_type = ObjectType.Key ∧
      (∀ s, p.description = some s → s ≠ "") ∧
      (∀ s, p.object_info = some s → s ≠ "") ∧
      ((∃ vc rest2, text.data = vc ++ rest2 ∧ vc ≠ [] ∧
          (∀ c ∈ vc, ¬(c = '[')) ∧ p.value = String.mk (rustTrim vc)) ∨
        p.value = text)) ∧
    (∀ text : String, containsArrow text.data = true →
      regexCaptures text.data = none → parse_message text = none) := by
  refine ⟨?_, ?_, ?_⟩
  · intro text h
    simp [parse_message, h]
  · intro text p h1 h2
    unfold parse_message at h2
    rw [h1] at h2
    simp only [if_true] at h2
    split at h2
    · exact absurd h2 (by simp)
    · rename_i v info desc hcap
      rw [Option.some.injEq] at h2
      subst h2
      have hinv := regexCaptures_some_inv hcap
      refine ⟨rfl, ?_, ?_, ?_⟩
      · intro s hs
        simp only [Option.map_eq_some'] at hs
        obtain ⟨dd, hdd, hsmk⟩ := hs
        obtain ⟨x, hxmem, hxw⟩ := hinv.2.2 dd hdd
        rw [← hsmk]
        exact stringMk_ne_empty (rustTrim_ne_nil hxmem hxw)
      · intro s hs
        simp only [Option.map_eq_some'] at hs
        obtain ⟨i, hi, hsmk⟩ := hs
        obtain ⟨t, ht⟩ := hinv.2.1 i hi
        rw [← hsmk]
        subst ht
        exact stringMk_ne_empty
          (rustTrim_ne_nil (List.mem_cons_self '[' t) (by decide))
      · rcases hinv.1 with ⟨vc, rest2, hsplit, hne, hnb, hv⟩ | hv
        · refine Or.inl ⟨vc, rest2, hsplit, hne, hnb, ?_⟩
          simp only [hv]
        · refine Or.inr ?_
          simp only [hv]
  · intro text h1 h2
    unfold parse_message
    rw [h1]
    simp only [if_true]
    rw [h2]

/-- Counterexample to C8 as stated: on the bare arrow input the value
group does not participate and the parser returns the whole raw input
`->` as the value, not the (empty, hence absent) trimmed text before the
arrow that the spec grammar computes; greedy matching splits at the last
arrow, not the first; and a text containing the arrow behind an
unclosed bracket makes the source panic instead of parsing. -/
theorem c8_counterexample :
    parse_message "->" = some ⟨"->", none, none, ObjectType.Key⟩ ∧
    (parse_message_spec "->").value = "" ∧
    parse_message "X -> Y -> Z" =
      some ⟨"X -> Y", some "Z", none, ObjectType.Key⟩ ∧
    (parse_message_spec "X -> Y -> Z").value = "X" ∧
    parse_message "[->" = none := by
  decide

/-- Witness for C8 (amended) at concrete inputs: an arrow-free text
parses verbatim as Other, and a parsed arrow text has object_type Key. -/
theorem c8_parse_message_witness :
    parse_message "something" =
      some ⟨"something", none, none, ObjectType.Other⟩ ∧
    (⟨"key", some "game", none, ObjectType.Key⟩ : ParsedInput).object_type =
      ObjectType.Key := by
  refine ⟨c8_parse_message_amended.1 "something" (by decide), ?_⟩
  exact (c8_parse_message_amended.2.1 "key -> game"
    ⟨"key", some "game", none, ObjectType.Key⟩ (by decide) (by decide)).1

/-! ## C9: reward printing -/

/-- C9 (amended): both pretty printers open with the 3-character state
glyph (behind the strikethrough wrap when Activated, which only then
wraps the text in `~~`); for a Key/KeyPreorder reward the formatter
prints the masked key exactly when the state is Unused, while the
model's own `Reward.pretty_print` always prints the raw value; an
Activated key reward is printed by the formatter with the full unmasked
value and the description; the debug form never masks and always
appends the description. -/
theorem c9_print_amended :
    (∀ r : Reward, ∃ rest1 rest2 : String,
      DefaultRewardFormatter.pretty_print r =
        (if r.object_state = ObjectState.Activated
          then "~~" ++ (r.object_state.as_str ++ " " ++ rest1) ++ "~~"
          else r.object_state.as_str ++ " " ++ rest1) ∧
      Reward.pretty_print r =
        (if r.object_state = ObjectState.Activated
          then "~~" ++ (r.object_state.as_str ++ " " ++ rest2) ++ "~~"
          else r.object_state.as_str ++ " " ++ rest2)) ∧
    (∀ r : Reward, r.object_type ≠ ObjectType.Other →
      r.object_state = ObjectState.Unused →
      DefaultRewardFormatter.pretty_print r =
        ObjectState.Unused.as_str ++ " " ++
          (match r.object_info with
            | some info => DefaultRewardFormatter.generate_key_with_mask r ++ " " ++ info
            | none => DefaultRewardFormatter.generate_key_with_mask r)) ∧
    (∀ r : Reward, r.object_type ≠ ObjectType.Other →
      r.object_state = ObjectState.Unused →
      Reward.pretty_print r =
        ObjectState.Unused.as_str ++ " " ++
          (match r.object_info with
            | some info => r.value ++ " " ++ info
            | none => r.value)) ∧
    (∀ r : Reward, r.object_type ≠ ObjectType.Other →
      r.object_state = ObjectState.Activated →
      DefaultRewardFormatter.pretty_print r =
        "~~" ++ (ObjectState.Activated.as_str ++ " " ++
          (match r.object_info with
            | some info => r.value ++ " " ++ info
            | none => r.value) ++
          " -> " ++ r.description.getD "") ++ "~~") ∧
    (∀ r : Reward, r.object_type ≠ ObjectType.Other →
      DefaultRewardFormatter.debug_print r =
        (match r.object_info with
          | some info => r.value ++ " " ++ info
          | none => r.value) ++
        " -> " ++ r.description.getD "") ∧
    (∀ r : Reward, r.object_type = ObjectType.Other →
      DefaultRewardFormatter.debug_print r =
        r.value ++ r.description.getD "") := by
  refine ⟨?_, ?_, ?_, ?_, ?_, ?_⟩
  · intro r
    obtain ⟨id, value, desc, info, otype, ostate⟩ := r
    cases otype <;> cases ostate <;> cases info
    all_goals simp [DefaultRewardFormatter.pretty_print, Reward.pretty_print,
      ObjectState.as_str, String.append_assoc]
    · exact ⟨value ++ (" -> " ++ desc.getD ""), by simp [String.append_assoc]⟩
    · rename_i val
      exact ⟨value ++ (" " ++ (val ++ (" -> " ++ desc.getD ""))),
        by simp [String.append_assoc]⟩
    · exact ⟨value ++ (" -> " ++ desc.getD ""), by simp [String.append_assoc]⟩
    · rename_i val
      exact ⟨value ++ (" " ++ (val ++ (" -> " ++ desc.getD ""))),
        by simp [String.append_assoc]⟩
    · exact ⟨value ++ desc.getD "", by simp [String.append_assoc]⟩
    · exact ⟨value ++ desc.getD "", by simp [String.append_assoc]⟩
  · intro r hto hst
    obtain ⟨id, value, desc, info, otype, ostate⟩ := r
    cases otype with
    | Other => exact absurd rfl hto
    | Key =>
      cases ostate with
      | Unused =>
        cases info <;>
          simp [DefaultRewardFormatter.pretty_print, ObjectState.as_str,
            String.append_assoc]
      | Pending => simp at hst
      | Activated => simp at hst
    | KeyPreorder =>
      cases ostate with
      | Unused =>
        cases info <;>
          simp [DefaultRewardFormatter.pretty_print, ObjectState.as_str,
            String.append_assoc]
      | Pending => simp at hst
      | Activated => simp at hst
  · intro r hto hst
    obtain ⟨id, value, desc, info, otype, ostate⟩ := r
    cases otype with
    | Other => exact absurd rfl hto
    | Key =>
      cases ostate with
      | Unused =>
        cases info <;>
          simp [Reward.pretty_print, ObjectState.as_str, String.append_assoc]
      | Pending => simp at hst
      | Activated => simp at hst
    | KeyPreorder =>
      cases ostate with
      | Unused =>
        cases info <;>
          simp [Reward.pretty_print, ObjectState.as_str, String.append_assoc]
      | Pending => simp at hst
      | Activated => simp at hst
  · intro r hto hst
    obtain ⟨id, value, desc, info, otype, ostate⟩ := r
    cases otype with
    | Other => exact absurd rfl hto
    | Key =>
      cases ostate with
      | Activated =>
        cases info <;>
          simp [DefaultRewardFormatter.pretty_print, ObjectState.as_str,
            String.append_assoc]
      | Pending => simp at hst
      | Unused => simp at hst
    | KeyPreorder =>
      cases ostate with
      | Activated =>
        cases info <;>
          simp [DefaultRewardFormatter.pretty_print, ObjectState.as_str,
            String.append_assoc]
      | Pending => simp at hst
      | Unused => simp at hst
  · intro r hto
    obtain ⟨id, value, desc, info, otype, ostate⟩ := r
    cases otype with
    | Other => exact absurd rfl hto
    | Key =>
      cases info <;>
        simp [DefaultRewardFormatter.debug_print, String.append_assoc]
    | KeyPreorder =>
      cases info <;>
        simp [DefaultRewardFormatter.debug_print, String.append_assoc]
  · intro r hto
    obtain ⟨id, value, desc, info, otype, ostate⟩ := r
    cases otype with
    | Other => simp [DefaultRewardFormatter.debug_print]
    | Key => simp at hto
    | KeyPreorder => simp at hto

/-- Counterexample to C9 as stated: the model's own
`Reward.pretty_print` (a cited pretty form) never masks, so the final
`-`-delimited segment of an Unused Key value appears verbatim in its
output, while the formatter's print of the same reward does mask it. -/
theorem c9_counterexample :
    Reward.pretty_print keyReward = "[ ] AAAAA-BBBBB-CCCCC-DDDD [Store]" ∧
    List.IsInfix "DDDD".data (Reward.pretty_print keyReward).data ∧
    DefaultRewardFormatter.pretty_print keyReward =
      "[ ] AAAAA-BBBBB-CCCCC-xxxx [Store]" ∧
    ¬ List.IsInfix "DDDD".data
      (DefaultRewardFormatter.pretty_print keyReward).data := by
  decide

/-- Witness for C9 (amended) at the repository's own test reward: the
formatter masks the Unused key, the model print reveals it, the
Activated formatter print reveals value and description behind the
strikethrough wrap, and the debug print reveals everything. -/
theorem c9_print_witness :
    DefaultRewardFormatter.pretty_print keyReward =
      "[ ] AAAAA-BBBBB-CCCCC-xxxx [Store]" ∧
    Reward.pretty_print keyReward = "[ ] AAAAA-BBBBB-CCCCC-DDDD [Store]" ∧
    DefaultRewardFormatter.pretty_print
        { keyReward with object_state := ObjectState.Activated } =
      "~~[+] AAAAA-BBBBB-CCCCC-DDDD [Store] -> Some game~~" ∧
    DefaultRewardFormatter.debug_print keyReward =
      "AAAAA-BBBBB-CCCCC-DDDD [Store] -> Some game" := by
  refine ⟨?_, ?_, ?_, ?_⟩
  · rw [c9_print_amended.2.1 keyReward (by decide) (by decide)]
    decide
  · rw [c9_print_amended.2.2.1 keyReward (by decide) (by decide)]
    decide
  · rw [c9_print_amended.2.2.2.1
      { keyReward with object_state := ObjectState.Activated }
      (by decide) (by decide)]
    decide
  · rw [c9_print_amended.2.2.2.2.1 keyReward (by decide)]
    decide

end Nightsong
